import Mathlib

/-!
# MonitoRSS-Web: shard handshake, auth service, cache helpers

A shallow embedding of the control flow of

* `src/bot/WebClientManager.js` (`onMessage`, `initializeNextShard`, `flushRedis`),
* `src/bot/WebClient.js` (`flushRedis`),
* `src/services/auth.js` (`tokenIsExpired`, `formatAccessToken`, `refreshToken`,
  `revokeAuthToken`, `getAuthToken`, `logout`),
* `src/services/guild.js` (`guildHasChannel`),
* `src/app.js` (the HTTP to HTTPS redirect middleware),

followed by the properties checked against it.  Effects (messages sent to shards,
network requests, cache and session operations) are recorded in explicit state;
answers of the outside world (clock readings, HTTP responses, store errors) are
read from an environment record.  Logging calls are not modelled.
-/

namespace MonitoRSS

/-! ## Shard manager (`src/bot/WebClientManager.js`) -/

/-- A shard process, identified by its `shard.id`. -/
abbrev Shard := Nat

/-- The fields of `WebClientManager` read or written by the message handler, together
with a record of the effects it performs: `sentInitialize` lists, oldest first, the
shards on which `send('initialize')` was called, `httpStarts` counts the invocations
of `startHttp`, `broadcasts` lists the arguments of `manager.broadcast`, and
`exitCode` is the argument of `process.exit` once it was called. -/
structure WebClientManager where
  totalShards : Nat
  shardsSpawned : Nat
  shardsInitialized : Nat
  shardsToInitialize : List Shard
  sentInitialize : List Shard
  httpStarts : Nat
  broadcasts : List String
  exitCode : Option Nat
  deriving DecidableEq, Repr

/-- State after the constructor, for a sharding manager with `n` shards in total. -/
def WebClientManager.new (n : Nat) : WebClientManager :=
  { totalShards := n
    shardsSpawned := 0
    shardsInitialized := 0
    shardsToInitialize := []
    sentInitialize := []
    httpStarts := 0
    broadcasts := []
    exitCode := none }

/-- `initializeNextShard`: `shift()` the queue and send `'initialize'` to the shard
taken.  On an empty queue `shift()` yields `undefined` and the call of `.send` on
it throws a `TypeError`: that is `none`. -/
def WebClientManager.initializeNextShard (m : WebClientManager) : Option WebClientManager :=
  match m.shardsToInitialize with
  | [] => none
  | firstToInitialize :: rest =>
    some { m with
      shardsToInitialize := rest
      sentInitialize := m.sentInitialize ++ [firstToInitialize] }

/-- `startHttp` as seen from the handler: one more invocation. -/
def WebClientManager.startHttp (m : WebClientManager) : WebClientManager :=
  { m with httpStarts := m.httpStarts + 1 }

/-- `onMessage(shard, message)`.  `process.exit(1)` does not return, so the `'exit'`
branch ends the handler. -/
def WebClientManager.onMessage (m : WebClientManager) (shard : Shard) (message : String) :
    Option WebClientManager :=
  if message = "exit" then
    some { m with broadcasts := m.broadcasts ++ ["exit"], exitCode := some 1 }
  else if message = "created" then
    let m1 := { m with shardsToInitialize := m.shardsToInitialize ++ [shard] }
    if m1.shardsToInitialize.length = m1.totalShards then
      m1.initializeNextShard
    else
      some m1
  else if message = "complete" then
    if m.shardsToInitialize.length > 0 then
      m.initializeNextShard
    else
      some m.startHttp
  else
    some m

/-- A message event: the shard that sent it and the message. -/
abbrev Event := Shard × String

/-- One delivery of the `'message'` listener registered in the constructor.  A
process that has exited handles nothing any more. -/
def WebClientManager.deliver (m : WebClientManager) (e : Event) : Option WebClientManager :=
  if m.exitCode.isSome then some m else m.onMessage e.1 e.2

/-- The manager after the messages of a run were delivered in order; `none` when a
handler threw. -/
def WebClientManager.run (m : WebClientManager) : List Event → Option WebClientManager
  | [] => some m
  | e :: rest => (m.deliver e).bind fun m1 => m1.run rest

/-- Shards whose `'created'` message is in the run, in order of arrival. -/
def createdShards (t : List Event) : List Shard :=
  (t.filter fun e => e.2 = "created").map Prod.fst

/-- Shards whose `'complete'` message is in the run, in order of arrival. -/
def completedShards (t : List Event) : List Shard :=
  (t.filter fun e => e.2 = "complete").map Prod.fst

/-- State of the manager for `n` shards after the run `t`, if no handler threw. -/
def after (n : Nat) (t : List Event) : Option WebClientManager :=
  (WebClientManager.new n).run t

/-- Every `'complete'` in the run comes from a shard that was sent `'initialize'`
earlier in the run. -/
def CompleteAfterInitialize (n : Nat) (t : List Event) : Prop :=
  ∀ (p : List Event) (s : Shard), p ++ [(s, "complete")] <+: t →
    ∃ m, after n p = some m ∧ s ∈ m.sentInitialize

/-- No shard asks the manager to exit during the run. -/
def NoExit (t : List Event) : Prop := ∀ e ∈ t, e.2 ≠ "exit"

instance NoExit.decidable (t : List Event) : Decidable (NoExit t) := by
  unfold NoExit
  infer_instance

/-- Every message of the run is delivered to a manager that is still running: no
message follows an `'exit'`, which ends the process. -/
def Live (t : List Event) : Prop := ∀ (p : List Event) (e : Event), p ++ [e] <+: t → NoExit p

/-- Shards that were sent `'initialize'` and whose `'complete'` is not in the run. -/
def awaitingComplete (m : WebClientManager) (t : List Event) : List Shard :=
  m.sentInitialize.filter fun s => decide (s ∉ completedShards t)

/-- Check of `CompleteAfterInitialize` at the `k`-th message of the run. -/
def completeAfterInitializeAt (n : Nat) (t : List Event) (k : Nat) : Bool :=
  match t[k]? with
  | some (s, msg) =>
    decide (msg ≠ "complete") ||
      (match after n (t.take k) with
       | some m => decide (s ∈ m.sentInitialize)
       | none => false)
  | none => true

/-- What the manager for `n` shards looks like after a run `t` that follows the
handshake: until the last `'created'` arrived the shards wait in the queue in order
of arrival; from then on the shards sent `'initialize'` are the first `1 + k` of
them, `k` being the number of `'complete'` messages received, the others still wait,
and `startHttp` ran once for every `'complete'` beyond the first `n - 1`. -/
def Handshake (n : Nat) (t : List Event) (m : WebClientManager) : Prop :=
  m.totalShards = n ∧
  if (createdShards t).length = n ∧ 0 < n then
    m.sentInitialize = (createdShards t).take (1 + (completedShards t).length) ∧
    m.shardsToInitialize = (createdShards t).drop (1 + (completedShards t).length) ∧
    m.httpStarts = 1 + (completedShards t).length - n
  else
    m.sentInitialize = [] ∧ m.shardsToInitialize = createdShards t ∧
    m.httpStarts = 0 ∧ completedShards t = []

/-! ## JavaScript values and objects -/

/-- The JavaScript values that occur in tokens, configuration, sessions and cached
snapshots.  Numbers are rationals (finite doubles, taken exactly); `nan` is `NaN`. -/
inductive JSVal where
  | undefined
  | null
  | bool (b : Bool)
  | num (q : ℚ)
  | nan
  | str (s : String)
  deriving DecidableEq

/-- Truthiness, as tested by `if (x)` and `!x`. -/
def JSVal.truthy : JSVal → Bool
  | .undefined => false
  | .null => false
  | .bool b => b
  | .num q => decide (q ≠ 0)
  | .nan => false
  | .str s => decide (s ≠ "")

/-- Strict equality `a === b`: same type and same value, `NaN` equal to nothing. -/
def JSVal.strictEq : JSVal → JSVal → Bool
  | .nan, _ => false
  | _, .nan => false
  | a, b => decide (a = b)

/-- `ToNumber`; `none` is `NaN`.  The conversion of strings is a parameter. -/
def JSVal.toNumber (strToNumber : String → Option ℚ) : JSVal → Option ℚ
  | .undefined => none
  | .null => some 0
  | .bool b => some (if b then 1 else 0)
  | .num q => some q
  | .nan => none
  | .str s => strToNumber s

/-- The comparison `a > v` for a number `a`: `v` is converted to a number and the
result is `false` when that is `NaN`. -/
def jsGreater (strToNumber : String → Option ℚ) (a : ℚ) (v : JSVal) : Bool :=
  match v.toNumber strToNumber with
  | some b => decide (a > b)
  | none => false

/-- The sum `n + v` for an integer `n`: numeric addition, or concatenation with the
decimal digits of `n` when `v` is a string.  Numbers are added exactly: this is the
sum JavaScript computes whenever `n`, `v` and the exact sum are integers of size at
most `2^53`, and may differ from it by rounding beyond. -/
def jsAdd (n : Int) : JSVal → JSVal
  | .undefined => .nan
  | .null => .num n
  | .bool b => .num (n + if b then 1 else 0)
  | .num q => .num (n + q)
  | .nan => .nan
  | .str s => .str (toString n ++ s)

/-- `Math.round`: the nearest integer, halves rounded towards positive infinity. -/
def mathRound (q : ℚ) : Int := ⌊q + 1 / 2⌋

/-- A plain object: its own properties in insertion order. -/
structure Obj where
  props : List (String × JSVal)
  deriving DecidableEq

/-- The property stored under `key`, if the object has it. -/
def Obj.lookup (o : Obj) (key : String) : Option JSVal := List.lookup key o.props

/-- Property read `o.key`: `undefined` when the object has no such property. -/
def Obj.get (o : Obj) (key : String) : JSVal := (o.lookup key).getD .undefined

/-- Property write in an object literal: an existing property keeps its place and
takes the new value, a new one is added at the end. -/
def Obj.set (o : Obj) (key : String) (v : JSVal) : Obj :=
  if (o.lookup key).isSome then
    ⟨o.props.map fun kv => if kv.1 = key then (key, v) else kv⟩
  else
    ⟨o.props ++ [(key, v)]⟩

/-- Objects on the heap; a reference is an index into it. -/
abbrev Heap := List Obj

/-! ## Auth service (`src/services/auth.js`) -/

/-- The configuration values read by the code modelled here: `config.bot.clientID`,
`config.bot.clientSecret`, `config.bot.redirectURI` and `config.https.enabled`. -/
structure Config where
  clientID : JSVal
  clientSecret : JSVal
  redirectURI : JSVal
  httpsEnabled : JSVal
  deriving DecidableEq

/-- The constants of `constants/discordAPI.js`, which is not among the sources:
taken as a parameter. -/
structure DiscordAPI where
  tokenHost : String
  tokenPath : String
  revokePath : String
  scopes : JSVal
  deriving DecidableEq

/-- A call of `fetch(url, options)`; `body` lists the entries given to
`URLSearchParams`, before they are encoded. -/
structure Request where
  method : String
  url : String
  body : List (String × JSVal)
  headers : List (String × String)
  deriving DecidableEq

/-- A value thrown, or a promise rejection: an `Error` made by the code with its
message, or a failure raised by a callee outside it (network, store, session). -/
inductive Thrown where
  | error (message : String)
  | external (what : String)
  deriving DecidableEq

/-- The response of `fetch`: `json` is what `res.json()` resolves to, `none` when the
body does not parse. -/
structure Response where
  ok : Bool
  status : Nat
  statusText : String
  json : Option Obj
  deriving DecidableEq

/-- Outcome of a `fetch` call: the promise rejects or resolves to a response. -/
inductive FetchResult where
  | rejected (e : Thrown)
  | response (r : Response)
  deriving DecidableEq

/-- A document of the `WebCache` collection. -/
structure WebCacheDoc where
  id : JSVal
  type : String
  deriving DecidableEq

/-- The effects of the auth service, in the order performed. -/
inductive Effect where
  | fetch (req : Request)
  | deleteMany (id : JSVal)
  | destroy
  deriving DecidableEq

/-- The answers of the outside world: the clock at the `k`-th `new Date()`, string to
number conversion, the outcome of the `k`-th `fetch`, and the errors, if any, of
`deleteMany` and of `session.destroy`. -/
structure Env where
  clock : Nat → Int
  strToNumber : String → Option ℚ
  fetch : Nat → Request → FetchResult
  deleteManyError : Option Thrown
  destroyError : Option Thrown

/-- What the auth service has done so far and the store it writes to. -/
structure World where
  dateReads : Nat
  effects : List Effect
  webCache : List WebCacheDoc
  deriving DecidableEq

/-- The requests sent so far, oldest first. -/
def World.requests (w : World) : List Request :=
  w.effects.filterMap fun e =>
    match e with
    | .fetch req => some req
    | _ => none

/-- `new Date().getTime()`. -/
def readClock (env : Env) (w : World) : Int × World :=
  (env.clock w.dateReads, { w with dateReads := w.dateReads + 1 })

/-- `await fetch(...)`: the request is recorded and the world answers. -/
def doFetch (env : Env) (req : Request) (w : World) : FetchResult × World :=
  (env.fetch w.requests.length req, { w with effects := w.effects ++ [.fetch req] })

/-- `tokenIsExpired(tokenObject)` when `new Date().getTime()` is `nowMs`. -/
def tokenIsExpired (strToNumber : String → Option ℚ) (nowMs : Int) (tokenObject : Obj) : Bool :=
  let nowEpochSeconds : ℚ := (nowMs : ℚ) / 1000
  let expiresAt := tokenObject.get "expiresAt"
  jsGreater strToNumber nowEpochSeconds expiresAt

/-- `formatAccessToken(tokenObject)` when `new Date().getTime()` is `nowMs`. -/
def formatAccessToken (nowMs : Int) (tokenObject : Obj) : Obj :=
  let expiresAt := jsAdd (mathRound ((nowMs : ℚ) / 1000)) (tokenObject.get "expires_in")
  tokenObject.set "expiresAt" expiresAt

/-- Property write `h[r][key] = v` on the heap: the object behind `r` is changed in
place. -/
def Heap.setProperty (h : Heap) (r : Nat) (key : String) (v : JSVal) : Heap :=
  match h[r]? with
  | some o => h.set r (o.set key v)
  | none => h

/-- The spread `...source` inside the literal of the object `target`: the own
properties of `source` are written to `target`, in order. -/
def Heap.copyProperties (h : Heap) (target source : Nat) : Heap :=
  match h[source]? with
  | some o => o.props.foldl (fun h1 kv => Heap.setProperty h1 target kv.1 kv.2) h
  | none => h

/-- `formatAccessToken` on the heap, `tokenObject` being a reference: the literal
`{ ...tokenObject, expiresAt }` makes a new empty object, copies the properties of
`tokenObject` into it and writes `expiresAt`.  The result is the reference of the new
object and the heap; `none` for a dangling reference. -/
def formatAccessTokenRef (nowMs : Int) (h : Heap) (tokenObject : Nat) : Option (Nat × Heap) :=
  match h[tokenObject]? with
  | none => none
  | some o =>
    let expiresAt := jsAdd (mathRound ((nowMs : ℚ) / 1000)) (o.get "expires_in")
    let formatted := h.length
    let h1 := h ++ [⟨[]⟩]
    let h2 := Heap.copyProperties h1 formatted tokenObject
    let h3 := Heap.setProperty h2 formatted "expiresAt" expiresAt
    some (formatted, h3)

/-- The request made by `refreshToken`. -/
def refreshRequest (api : DiscordAPI) (tokenObject : Obj) (config : Config) : Request :=
  { method := "POST"
    url := api.tokenHost ++ api.tokenPath
    body := [("client_id", config.clientID), ("client_secret", config.clientSecret),
      ("grant_type", .str "refresh_token"),
      ("refresh_token", tokenObject.get "refresh_token"),
      ("redirect_uri", config.redirectURI), ("scope", api.scopes)]
    headers := [("Content-Type", "application/x-www-form-urlencoded")] }

/-- The message of the error thrown on a response that is not ok. -/
def non200Message (res : Response) : String :=
  "Non-200 status code (" ++ toString res.status ++ ", " ++ res.statusText ++ ")"

/-- `refreshToken(tokenObject, config)`.  The logging of a failed response, with its
call of `getResponseError`, is not modelled. -/
def refreshToken (api : DiscordAPI) (env : Env) (tokenObject : Obj) (config : Config)
    (w : World) : Except Thrown Obj × World :=
  let (res, w1) := doFetch env (refreshRequest api tokenObject config) w
  match res with
  | .rejected e => (.error e, w1)
  | .response res =>
    if !res.ok then
      (.error (.error (non200Message res)), w1)
    else
      match res.json with
      | none => (.error (.external "res.json"), w1)
      | some json =>
        let (nowMs, w2) := readClock env w1
        (.ok (formatAccessToken nowMs json), w2)

/-- `getAuthToken(token, config)`. -/
def getAuthToken (api : DiscordAPI) (env : Env) (token : Obj) (config : Config)
    (w : World) : Except Thrown Obj × World :=
  let (nowMs, w1) := readClock env w
  if !tokenIsExpired env.strToNumber nowMs token then
    (.ok token, w1)
  else
    refreshToken api env token config w1

/-- The two requests made by `revokeAuthToken`, in the order of the array given to
`Promise.all`: the one built from `accessTokenBody` and the one built from
`refreshTokenBody`. -/
def revokeRequests (api : DiscordAPI) (tokenObject : Obj) (config : Config) :
    Request × Request :=
  let accessTokenBody := [("client_id", config.clientID),
    ("client_secret", config.clientSecret), ("token", tokenObject.get "access_token")]
  let refreshTokenBody := [("client_id", config.clientID),
    ("client_secret", config.clientSecret), ("token", tokenObject.get "access_token")]
  let url := api.tokenHost ++ api.revokePath
  ({ method := "POST", url := url, body := accessTokenBody, headers := [] },
   { method := "POST", url := url, body := refreshTokenBody, headers := [] })

/-- The message of the error thrown by `revokeAuthToken`. -/
def revokeFailedMessage (accessResp refreshResp : Response) : String :=
  "Failed to completely revoke tokens, bad status codes (access_token: " ++
    toString accessResp.status ++ ", refresh_token: " ++ toString refreshResp.ok ++ ")"

/-- `revokeAuthToken(tokenObject, config)`.  Both `fetch` calls are made before
`Promise.all` is awaited; when both reject, the rejection of the first is taken. -/
def revokeAuthToken (api : DiscordAPI) (env : Env) (tokenObject : Obj) (config : Config)
    (w : World) : Except Thrown Unit × World :=
  let reqs := revokeRequests api tokenObject config
  let (accessRes, w1) := doFetch env reqs.1 w
  let (refreshRes, w2) := doFetch env reqs.2 w1
  match accessRes, refreshRes with
  | .rejected e, _ => (.error e, w2)
  | .response _, .rejected e => (.error e, w2)
  | .response accessResp, .response refreshResp =>
    if !accessResp.ok || !refreshResp.ok then
      (.error (.error (revokeFailedMessage accessResp refreshResp)), w2)
    else
      (.ok (), w2)

/-- `deleteCachedUserData(id)`: `deleteMany` with the filter
`{ id, $or: [{ type: 'user' }, { type: 'guilds' }] }`. -/
def deleteCachedUserData (env : Env) (id : JSVal) (w : World) : Except Thrown Unit × World :=
  let w1 := { w with effects := w.effects ++ [.deleteMany id] }
  match env.deleteManyError with
  | some e => (.error e, w1)
  | none =>
    (.ok (), { w1 with webCache := w1.webCache.filter fun d =>
      !(decide (d.id = id) && (decide (d.type = "user") || decide (d.type = "guilds"))) })

/-- A session: `token` and `identity` are objects when set (`none` is a missing,
falsy, property). -/
structure Session where
  token : Option Obj
  identity : Option Obj
  deriving DecidableEq

/-- `logout(requestHandler, session, config)`; `requestHandler` is not used by the
code.  The promise resolves (`.ok`) or rejects (`.error`). -/
def logout (api : DiscordAPI) (env : Env) (session : Session) (config : Config)
    (w : World) : Except Thrown Unit × World :=
  let (revoked, w1) :=
    match session.token with
    | some token => revokeAuthToken api env token config w
    | none => (.ok (), w)
  match revoked with
  | .error e => (.error e, w1)
  | .ok _ =>
    let (deleted, w2) :=
      match session.identity with
      | some identity => deleteCachedUserData env (identity.get "id") w1
      | none => (.ok (), w1)
    match deleted with
    | .error e => (.error e, w2)
    | .ok _ =>
      let w3 := { w2 with effects := w2.effects ++ [.destroy] }
      match env.destroyError with
      | some err => (.error err, w3)
      | none => (.ok (), w3)

/-- First step of `logout`: the outcome of `revokeAuthToken` when `session.token` is
set, nothing done otherwise. -/
def logoutRevoked (api : DiscordAPI) (env : Env) (session : Session) (config : Config)
    (w : World) : Except Thrown Unit × World :=
  match session.token with
  | some token => revokeAuthToken api env token config w
  | none => (.ok (), w)

/-- Second step of `logout`, started in the world `w1` left by the first: the
outcome of `deleteCachedUserData` when `session.identity` is set, nothing done
otherwise. -/
def logoutDeleted (env : Env) (session : Session) (w1 : World) : Except Thrown Unit × World :=
  match session.identity with
  | some identity => deleteCachedUserData env (identity.get "id") w1
  | none => (.ok (), w1)

/-! ## Guild service (`src/services/guild.js`) -/

/-- A cached channel snapshot. -/
structure Channel where
  id : String
  guildID : JSVal
  deriving DecidableEq

/-- The channel part of the cache mirror: snapshots keyed by channel ID, and the
error with which commands fail when the connection is broken. -/
structure ChannelCache where
  channels : List (String × Channel)
  failure : Option Thrown
  deriving DecidableEq

/-- Modelled from the spec: `RedisChannel.fetch(redisClient, channelID)` of
`structs/Channel.js`, which is not among the sources.  The cache mirror keeps
snapshots keyed by ID; `fetch` resolves to the snapshot kept under the ID, or to
`null` (`none`) when there is none. -/
def RedisChannel.fetch (redisClient : ChannelCache) (channelID : String) :
    Except Thrown (Option Channel) :=
  match redisClient.failure with
  | some e => .error e
  | none => .ok (List.lookup channelID redisClient.channels)

/-- `guildHasChannel(guildID, channelID, redisClient)`. -/
def guildHasChannel (guildID : JSVal) (channelID : String) (redisClient : ChannelCache) :
    Except Thrown Bool :=
  match RedisChannel.fetch redisClient channelID with
  | .error e => .error e
  | .ok none => .ok false
  | .ok (some channel) => .ok (channel.guildID.strictEq guildID)

/-! ## The HTTPS redirect of the app factory (`src/app.js`) -/

/-- What the redirect middleware reads of a request: `req.secure`,
`req.headers.host` (`none` when the header is absent) and `req.url`. -/
structure Req where
  secure : Bool
  host : Option String
  url : String
  deriving DecidableEq

/-- How a middleware ends a request: `redirect` is `res.redirect(...)`, with the
value Express writes to the `Location` header. -/
inductive Reply where
  | redirect (location : String)
  | other (what : String)
  deriving DecidableEq

/-- What a middleware does with a request: call `next()` or answer. -/
inductive Step where
  | next
  | reply (r : Reply)
  deriving DecidableEq

abbrev Middleware := Req → Step

/-- String conversion of `req.headers.host` in a concatenation. -/
def hostString : Option String → String
  | some h => h
  | none => "undefined"

/-- The function given to `app.use` when HTTPS is enabled.  `res.redirect` belongs to
Express, not to the sources: `locationOf` is what it writes to the `Location` header
for a given argument. -/
def httpsRedirect (locationOf : String → String) : Middleware := fun req =>
  if !req.secure then
    .reply (.redirect (locationOf ("https://" ++ hostString req.host ++ req.url)))
  else
    .next

/-- The middleware stack built by the factory: the redirect, if
`config.https.enabled` is truthy, followed by everything registered later
(compression, body parser, sessions, logging, routes). -/
def appStack (locationOf : String → String) (config : Config) (later : List Middleware) :
    List Middleware :=
  (if config.httpsEnabled.truthy then [httpsRedirect locationOf] else []) ++ later

/-! ### The `Location` header written by Express

`res.redirect(url)` of Express 4.17 sets `Location` to `encodeUrl(url)`, the function
of the package `encodeurl` 1.0.2: every maximal run of characters outside its safe
class, and of `%` signs that do not start a `%hh` escape together with the one or two
characters looked at after them, is replaced by `encodeURI` of the run. -/

/-- The characters `encodeUrl` leaves alone, `%` included:
`[\x21\x25\x26-\x3B\x3D\x3F-\x5B\x5D\x5F\x61-\x7A\x7E]`. -/
def urlAllowed (c : Char) : Bool :=
  let n := c.toNat
  n = 0x21 || n = 0x25 || (0x26 ≤ n && n ≤ 0x3B) || n = 0x3D || (0x3F ≤ n && n ≤ 0x5B) ||
    n = 0x5D || n = 0x5F || (0x61 ≤ n && n ≤ 0x7A) || n = 0x7E

/-- The characters `encodeURI` leaves alone: ASCII letters and digits and
`; / ? : @ & = + $ , - _ . ! ~ * ' ( ) #`. -/
def uriKept (c : Char) : Bool :=
  let n := c.toNat
  (0x41 ≤ n && n ≤ 0x5A) || (0x61 ≤ n && n ≤ 0x7A) || (0x30 ≤ n && n ≤ 0x39) ||
    [0x3B, 0x2F, 0x3F, 0x3A, 0x40, 0x26, 0x3D, 0x2B, 0x24, 0x2C, 0x2D, 0x5F, 0x2E, 0x21, 0x7E,
      0x2A, 0x27, 0x28, 0x29, 0x23].contains n

/-- The bytes of the UTF-8 encoding of a code point. -/
def utf8Bytes (n : Nat) : List Nat :=
  if n < 0x80 then [n]
  else if n < 0x800 then [0xC0 + n / 64, 0x80 + n % 64]
  else if n < 0x10000 then [0xE0 + n / 4096, 0x80 + n / 64 % 64, 0x80 + n % 64]
  else [0xF0 + n / 262144, 0x80 + n / 4096 % 64, 0x80 + n / 64 % 64, 0x80 + n % 64]

/-- An upper-case hexadecimal digit. -/
def hexDigit (d : Nat) : Char := "0123456789ABCDEF".toList.getD d '0'

/-- A byte as `%hh`. -/
def percentByte (b : Nat) : List Char := ['%', hexDigit (b / 16), hexDigit (b % 16)]

/-- `encodeURI` of one character. -/
def encodeURIChar (c : Char) : List Char :=
  if uriKept c then [c] else ((utf8Bytes c.toNat).map percentByte).flatten

/-- The class `[0-9A-Fa-f]`. -/
def isHexDigit (c : Char) : Bool :=
  let n := c.toNat
  (0x30 ≤ n && n ≤ 0x39) || (0x41 ≤ n && n ≤ 0x46) || (0x61 ≤ n && n ≤ 0x66)

/-- For the text after a `%`: `some k` when the `%` does not start an escape and is
encoded together with the next `k` characters (`%(?:[^0-9A-Fa-f]|[0-9A-Fa-f][^0-9A-Fa-f]|$)`),
`none` when the `%` is left as it is. -/
def looseEscape : List Char → Option Nat
  | [] => some 0
  | a :: rest =>
    if !isHexDigit a then some 1
    else
      match rest with
      | [] => none
      | b :: _ => if !isHexDigit b then some 2 else none

/-- The scan of `encodeUrl`; the first `pending` characters are part of a run being
encoded. -/
def encodeUrlChars : Nat → List Char → List Char
  | _, [] => []
  | pending + 1, c :: rest => encodeURIChar c ++ encodeUrlChars pending rest
  | 0, c :: rest =>
    if c = '%' then
      match looseEscape rest with
      | some pending => encodeURIChar c ++ encodeUrlChars pending rest
      | none => c :: encodeUrlChars 0 rest
    else if urlAllowed c then
      c :: encodeUrlChars 0 rest
    else
      encodeURIChar c ++ encodeUrlChars 0 rest

/-- `encodeUrl(url)` for a string without unpaired surrogates. -/
def encodeUrl (url : String) : String := String.mk (encodeUrlChars 0 url.toList)

/-- A character that no `encodeUrl` touches wherever it stands: safe and not `%`. -/
def plainUrlChar (c : Char) : Bool := urlAllowed c && decide (c ≠ '%')

/-- The handling of a request: how many middlewares of the stack were invoked and
the answer, if one of them answered. -/
structure Handled where
  invoked : Nat
  reply : Option Reply
  deriving DecidableEq

/-- Dispatch in the manner of Express: the middlewares are invoked in the order of
registration until one answers instead of calling `next()`. -/
def dispatch : List Middleware → Req → Handled
  | [], _ => { invoked := 0, reply := none }
  | mw :: rest, req =>
    match mw req with
    | .reply r => { invoked := 1, reply := some r }
    | .next =>
      let h := dispatch rest req
      { h with invoked := h.invoked + 1 }

/-! ## Flushing the cache (`flushRedis` in `WebClient.js` and `WebClientManager.js`) -/

/-- The cache as a finite map from keys to values, and the number of `MULTI`/`EXEC`
transactions executed on it. -/
structure Redis where
  store : List (String × String)
  execs : Nat
  deriving DecidableEq

/-- The errors, if any, with which `KEYS` and `EXEC` fail. -/
structure RedisFaults where
  keysError : Option Thrown
  execError : Option Thrown
  deriving DecidableEq

/-- Glob matching as done by `KEYS`, for patterns of literal characters, `?` and
`*` (character classes and escapes are not modelled). -/
def globMatch : List Char → List Char → Bool
  | [], s => s.isEmpty
  | p :: ps, s =>
    if p = '*' then
      s.tails.any (globMatch ps)
    else
      match s with
      | [] => false
      | c :: cs => (p = '?' || p = c) && globMatch ps cs

/-- The value stored under a key. -/
def Redis.get (r : Redis) (key : String) : Option String := List.lookup key r.store

/-- `KEYS pattern`. -/
def Redis.keys (r : Redis) (pattern : String) : List String :=
  (r.store.map Prod.fst).filter fun key => globMatch pattern.toList key.toList

/-- `DEL key`: the reply is the number of keys removed. -/
def Redis.del (r : Redis) (key : String) : Nat × Redis :=
  (if (r.get key).isSome then 1 else 0,
   { r with store := r.store.filter fun kv => kv.1 ≠ key })

/-- The queued commands of a transaction, run in order. -/
def Redis.runQueued (r : Redis) : List String → List Nat × Redis
  | [] => ([], r)
  | key :: rest =>
    let (reply, r1) := r.del key
    let (replies, r2) := r1.runQueued rest
    (reply :: replies, r2)

/-- `multi.exec`: the queued `DEL`s are run as one transaction. -/
def Redis.exec (r : Redis) (multi : List String) : List Nat × Redis :=
  let (replies, r1) := r.runQueued multi
  (replies, { r1 with execs := r1.execs + 1 })

/-- `WebClientManager.flushRedis`, on `this.redisClient`.  The result is the array of
replies of the transaction, or `undefined` (`none`) when there was nothing to do. -/
def WebClientManager.flushRedis (faults : RedisFaults) (redisClient : Redis) :
    Except Thrown (Option (List Nat)) × Redis :=
  match faults.keysError with
  | some e => (.error e, redisClient)
  | none =>
    let keys := redisClient.keys "drss*"
    if keys.length > 0 then
      let multi := keys.foldl (fun queued key => queued ++ [key]) []
      match faults.execError with
      | some err => (.error err, redisClient)
      | none =>
        let (res, r1) := redisClient.exec multi
        (.ok (some res), r1)
    else
      (.ok none, redisClient)

/-- `WebClient.flushRedis`, on `this.redisClient`. -/
def WebClient.flushRedis (faults : RedisFaults) (redisClient : Redis) :
    Except Thrown (Option (List Nat)) × Redis :=
  match faults.keysError with
  | some e => (.error e, redisClient)
  | none =>
    let keys := redisClient.keys "drss*"
    if keys.length > 0 then
      let multi := keys.foldl (fun queued key => queued ++ [key]) []
      match faults.execError with
      | some err => (.error err, redisClient)
      | none =>
        let (res, r1) := redisClient.exec multi
        (.ok (some res), r1)
    else
      (.ok none, redisClient)

/-! ## Starting the HTTP server (`startHttp` in `WebClientManager.js`, `src/app.js`) -/

/-- A value at run time: a primitive or a reference to an object of the store. -/
inductive Val where
  | prim (v : JSVal)
  | ref (r : Nat)
  deriving DecidableEq

/-- The objects alive: the object behind reference `r` has the properties
`objects[r]`. -/
structure Store where
  objects : List (List (String × Val))
  deriving DecidableEq

/-- Truthiness of a run-time value: objects are truthy. -/
def Val.truthy : Val → Bool
  | .prim v => v.truthy
  | .ref _ => true

/-- The value of property `key` of the object behind reference `r`: `undefined`
when it has none. -/
def Store.propOf (st : Store) (r : Nat) (key : String) : Val :=
  (List.lookup key (st.objects.getD r [])).getD (.prim .undefined)

/-- Property read `x.key`: a `TypeError` on `undefined` and `null`, the stored value
for an object that has the property, `undefined` otherwise. -/
def Store.getProp (st : Store) (x : Val) (key : String) : Except Thrown Val :=
  match x with
  | .prim .undefined =>
    .error (.external ("TypeError: Cannot read property " ++ key ++ " of undefined"))
  | .prim .null =>
    .error (.external ("TypeError: Cannot read property " ++ key ++ " of null"))
  | .prim _ => .ok (.prim .undefined)
  | .ref r => .ok (st.propOf r key)

/-- What the factory of `app.js` has set up when it returns: whether
`app.enable('trust proxy')` ran, whether the HTTPS redirect is installed, the
`secret` and `cookie.secure` options of the session middleware, the
`mongooseConnection` given to the session store, and the `app.set` calls in order. -/
structure App where
  trustProxy : Bool
  redirect : Bool
  sessionSecret : Val
  cookieSecure : Val
  mongooseConnection : Val
  settings : List (String × Val)
  deriving DecidableEq

/-- The factory exported by `app.js`, `(webClientManager) => { ... }`, called as
`expressApp(...args)`: the first argument is bound to `webClientManager` (`undefined`
when there is none) and further arguments are ignored.  `new MongoStore` throws when
it is given no connection.  The request logger and the registration of the other
middlewares are not modelled. -/
def expressApp (st : Store) (args : List Val) : Except Thrown App := do
  let webClientManager := args.head?.getD (.prim .undefined)
  let config ← st.getProp webClientManager "config"
  let http ← st.getProp config "http"
  let trustProxy ← st.getProp http "trustProxy"
  let https ← st.getProp config "https"
  let enabled ← st.getProp https "enabled"
  let sessionSecret ← st.getProp http "sessionSecret"
  let mongooseConnection ← st.getProp webClientManager "mongoConnection"
  if !mongooseConnection.truthy then
    throw (.external "new MongoStore")
  let redisClient ← st.getProp webClientManager "redisClient"
  pure
    { trustProxy := trustProxy.truthy
      redirect := enabled.truthy
      sessionSecret := sessionSecret
      cookieSecure := enabled
      mongooseConnection := mongooseConnection
      settings := [("webClientManager", webClientManager), ("config", config),
        ("redisClient", redisClient)] }

/-- What `startHttp` has done when it returns: the app it serves, the port given to
`http.listen`, and whether `startHttps` was called. -/
structure Started where
  app : App
  httpPort : Val
  httpsStarted : Bool
  deriving DecidableEq

/-- The body of `startHttp()` with `this` bound to the value `this`: the argument
lists of the calls of the factory it made, and its outcome. -/
def WebClientManager.startHttpOn (st : Store) (this : Val) :
    List (List Val) × Except Thrown Started :=
  match st.getProp this "mongoConnection", st.getProp this "redisClient",
      st.getProp this "config" with
  | .ok mongoConnection, .ok redisClient, .ok thisConfig =>
    let args := [mongoConnection, redisClient, thisConfig]
    ([args], do
      let app ← expressApp st args
      let config := thisConfig
      let http ← st.getProp config "http"
      let httpPort ← st.getProp http "port"
      let https ← st.getProp config "https"
      let enabled ← st.getProp https "enabled"
      pure { app := app, httpPort := httpPort,
             httpsStarted := decide (enabled = .prim (.bool true)) })
  | .error e, _, _ => ([], .error e)
  | .ok _, .error e, _ => ([], .error e)
  | .ok _, .ok _, .error e => ([], .error e)

/-! ## Sample inputs -/

/-- Sample endpoint constants. -/
def sampleAPI : DiscordAPI :=
  { tokenHost := "https://discord.com", tokenPath := "/api/oauth2/token",
    revokePath := "/api/oauth2/token/revoke", scopes := .str "identify guilds" }

/-- Sample configuration. -/
def sampleConfig : Config :=
  { clientID := .str "id", clientSecret := .str "secret",
    redirectURI := .str "https://example.org/authorize", httpsEnabled := .bool true }

/-- A token that expired at epoch second 1000. -/
def sampleToken : Obj :=
  ⟨[("access_token", .str "A"), ("refresh_token", .str "R"), ("expires_in", .num 60),
    ("expiresAt", .num 1000)]⟩

/-- The body of a token response. -/
def sampleBody : Obj :=
  ⟨[("access_token", .str "A2"), ("refresh_token", .str "R2"), ("expires_in", .num 60)]⟩

/-- A `200 OK` response carrying `sampleBody`. -/
def sampleResponse : Response :=
  { ok := true, status := 200, statusText := "OK", json := some sampleBody }

/-- A world in which it is epoch millisecond 2000000 and every request is answered
`200 OK` with `sampleBody`. -/
def sampleEnv : Env :=
  { clock := fun _ => 2000000
    strToNumber := fun _ => none
    fetch := fun _ _ => .response sampleResponse
    deleteManyError := none
    destroyError := none }

/-- Nothing done yet, empty store. -/
def sampleWorld : World := { dateReads := 0, effects := [], webCache := [] }

/-- A `401` response. -/
def failingResponse : Response :=
  { ok := false, status := 401, statusText := "Unauthorized", json := none }

/-- A world in which every request is answered `401`. -/
def failingEnv : Env :=
  { clock := fun _ => 2000000
    strToNumber := fun _ => none
    fetch := fun _ _ => .response failingResponse
    deleteManyError := none
    destroyError := none }

/-- A logged-in session of user `42`. -/
def sampleSession : Session :=
  { token := some sampleToken, identity := some ⟨[("id", .str "42")]⟩ }

/-- Nothing done yet; the store holds data of user `42`. -/
def storedWorld : World :=
  { dateReads := 0, effects := [],
    webCache := [{ id := .str "42", type := "user" }, { id := .str "42", type := "guilds" }] }

/-- A store with a manager (reference `0`) whose `config` is object `1`, whose
`mongoConnection` is object `2` and whose `redisClient` is object `3`; the config has
`http` (object `4`) and `https` (object `5`); the connection carries its own
`config`, the options hash kept by Mongoose (object `6`). -/
def sampleStore : Store :=
  ⟨[[("config", .ref 1), ("mongoConnection", .ref 2), ("redisClient", .ref 3)],
    [("http", .ref 4), ("https", .ref 5)],
    [("config", .ref 6), ("name", .prim (.str "drssweb"))],
    [("connected", .prim (.bool true))],
    [("port", .prim (.num 8081)), ("trustProxy", .prim (.bool false)),
     ("sessionSecret", .prim (.str "secret"))],
    [("enabled", .prim (.bool false)), ("port", .prim (.num 443))],
    [("autoIndex", .prim (.bool true))]]⟩

/-- The refresh request for `sampleToken` under `sampleAPI` and `sampleConfig`,
written out. -/
def sampleRefreshRequest : Request :=
  { method := "POST"
    url := "https://discord.com/api/oauth2/token"
    body := [("client_id", .str "id"), ("client_secret", .str "secret"),
      ("grant_type", .str "refresh_token"), ("refresh_token", .str "R"),
      ("redirect_uri", .str "https://example.org/authorize"),
      ("scope", .str "identify guilds")]
    headers := [("Content-Type", "application/x-www-form-urlencoded")] }

/-- A world in which it is epoch millisecond 2000000 and the token endpoint answers
`200 OK` with `sampleBody` to `sampleRefreshRequest` and `401` to any other request. -/
def tokenEndpointEnv : Env :=
  { clock := fun _ => 2000000
    strToNumber := fun _ => none
    fetch := fun _ req =>
      if req = sampleRefreshRequest then .response sampleResponse
      else .response failingResponse
    deleteManyError := none
    destroyError := none }

/-! # Properties -/

/-! ### Basic facts about runs -/

theorem run_append (m : WebClientManager) (a b : List Event) :
    m.run (a ++ b) = (m.run a).bind fun m1 => m1.run b := by
  induction a generalizing m with
  | nil => simp [WebClientManager.run]
  | cons e a ih =>
    simp only [List.cons_append, WebClientManager.run]
    cases h : m.deliver e with
    | none => simp
    | some m1 => simp [ih]

theorem after_snoc (n : Nat) (p : List Event) (e : Event) :
    after n (p ++ [e]) = (after n p).bind fun m => m.deliver e := by
  unfold after
  rw [run_append]
  congr 1
  funext m
  simp [WebClientManager.run]

theorem createdShards_snoc (p : List Event) (s : Shard) (msg : String) :
    createdShards (p ++ [(s, msg)]) =
      if msg = "created" then createdShards p ++ [s] else createdShards p := by
  unfold createdShards
  by_cases h : msg = "created" <;> simp [List.filter_append, List.filter_cons, h]

theorem completedShards_snoc (p : List Event) (s : Shard) (msg : String) :
    completedShards (p ++ [(s, msg)]) =
      if msg = "complete" then completedShards p ++ [s] else completedShards p := by
  unfold completedShards
  by_cases h : msg = "complete" <;> simp [List.filter_append, List.filter_cons, h]

theorem createdShards_append (a b : List Event) :
    createdShards (a ++ b) = createdShards a ++ createdShards b := by
  simp [createdShards, List.filter_append]

theorem completedShards_append (a b : List Event) :
    completedShards (a ++ b) = completedShards a ++ completedShards b := by
  simp [completedShards, List.filter_append]

theorem completeAfterInitialize_restrict {n : Nat} {p t : List Event}
    (h : CompleteAfterInitialize n t) (hp : p <+: t) : CompleteAfterInitialize n p :=
  fun q s hq => h q s (hq.trans hp)

theorem noExit_restrict {p t : List Event} (h : NoExit t) (hp : p <+: t) : NoExit p :=
  fun e he => h e (hp.subset he)

theorem initializeNextShard_of_ne_nil (m : WebClientManager) (h : m.shardsToInitialize ≠ []) :
    m.initializeNextShard = some { m with
      shardsToInitialize := m.shardsToInitialize.drop 1
      sentInitialize := m.sentInitialize ++ m.shardsToInitialize.take 1 } := by
  unfold WebClientManager.initializeNextShard
  cases hq : m.shardsToInitialize with
  | nil => exact absurd hq h
  | cons a rest => simp

/-! ### The handshake invariant -/

theorem handshake_nil (n : Nat) : Handshake n [] (WebClientManager.new n) := by
  unfold Handshake
  refine ⟨rfl, ?_⟩
  have h : ¬ ((createdShards []).length = n ∧ 0 < n) := by
    simp [createdShards]
    omega
  rw [if_neg h]
  simp [WebClientManager.new, createdShards, completedShards]

theorem handshake_step {n : Nat} {p : List Event} {m : WebClientManager} (s : Shard)
    (msg : String) (hm : Handshake n p m) (hex : m.exitCode = none) (hexit : msg ≠ "exit")
    (hlen : (createdShards (p ++ [(s, msg)])).length ≤ n)
    (hinit : msg = "complete" → s ∈ m.sentInitialize) :
    ∃ m1, m.deliver (s, msg) = some m1 ∧ Handshake n (p ++ [(s, msg)]) m1 ∧
      m1.exitCode = none := by
  obtain ⟨htot, hphase⟩ := hm
  have hdel : m.deliver (s, msg) = m.onMessage s msg := by
    simp [WebClientManager.deliver, hex]
  rw [hdel]
  by_cases hcr : msg = "created"
  · subst hcr
    rw [createdShards_snoc, if_pos rfl] at hlen
    simp only [List.length_append, List.length_singleton] at hlen
    have hlt : ¬ ((createdShards p).length = n ∧ 0 < n) := by omega
    rw [if_neg hlt] at hphase
    obtain ⟨hsent, hqueue, hhttp, hcomp⟩ := hphase
    by_cases hfull : (createdShards p).length + 1 = n
    · have hne : ({ m with shardsToInitialize := m.shardsToInitialize ++ [s] } :
          WebClientManager).shardsToInitialize ≠ [] := by simp
      have hstep : m.onMessage s "created" = some
          { m with
            shardsToInitialize := (m.shardsToInitialize ++ [s]).drop 1
            sentInitialize := m.sentInitialize ++ (m.shardsToInitialize ++ [s]).take 1 } := by
        simp only [WebClientManager.onMessage, hexit, if_false, if_true, List.length_append,
          List.length_singleton, hqueue, htot, hfull]
        rw [initializeNextShard_of_ne_nil _ (by simp)]
      rw [hstep]
      refine ⟨_, rfl, ?_, hex⟩
      · unfold Handshake
        refine ⟨htot, ?_⟩
        have hph : (createdShards (p ++ [(s, "created")])).length = n ∧ 0 < n := by
          rw [createdShards_snoc, if_pos rfl]
          simp only [List.length_append, List.length_singleton]
          omega
        have hcc : ¬ ("created" = "complete") := by decide
        rw [if_pos hph, createdShards_snoc, if_pos rfl, completedShards_snoc,
          if_neg hcc, hcomp]
        simp only [hsent, hqueue, hhttp, List.length_nil, List.nil_append, true_and]
        omega
    · refine ⟨{ m with shardsToInitialize := m.shardsToInitialize ++ [s] }, ?_, ?_, hex⟩
      · simp [WebClientManager.onMessage, hqueue, htot, hfull]
      · unfold Handshake
        refine ⟨htot, ?_⟩
        have hph : ¬ ((createdShards (p ++ [(s, "created")])).length = n ∧ 0 < n) := by
          rw [createdShards_snoc, if_pos rfl]
          simp only [List.length_append, List.length_singleton]
          omega
        have hcc : ¬ ("created" = "complete") := by decide
        rw [if_neg hph, createdShards_snoc, if_pos rfl, completedShards_snoc,
          if_neg hcc]
        simp [hsent, hqueue, hhttp, hcomp]
  · rw [createdShards_snoc, if_neg hcr] at hlen
    by_cases hco : msg = "complete"
    · subst hco
      have hs := hinit rfl
      have hph : (createdShards p).length = n ∧ 0 < n := by
        by_contra hcon
        rw [if_neg hcon] at hphase
        rw [hphase.1] at hs
        simp at hs
      rw [if_pos hph] at hphase
      obtain ⟨hsent, hqueue, hhttp⟩ := hphase
      by_cases hq : m.shardsToInitialize.length > 0
      · have hne : m.shardsToInitialize ≠ [] := List.ne_nil_of_length_pos hq
        have hstep : m.onMessage s "complete" = some
            { m with
              shardsToInitialize := m.shardsToInitialize.drop 1
              sentInitialize := m.sentInitialize ++ m.shardsToInitialize.take 1 } := by
          simp only [WebClientManager.onMessage, hq, if_true]
          rw [if_neg hexit, if_neg hcr, initializeNextShard_of_ne_nil _ hne]
        rw [hstep]
        refine ⟨_, rfl, ?_, hex⟩
        · unfold Handshake
          refine ⟨htot, ?_⟩
          rw [createdShards_snoc, if_neg hcr, completedShards_snoc, if_pos rfl,
            if_pos hph]
          rw [hqueue, List.length_drop] at hq
          simp only [List.length_append, List.length_singleton]
          refine ⟨?_, ?_, ?_⟩
          · rw [hsent, hqueue, ← List.take_add, Nat.add_assoc]
          · rw [hqueue, List.drop_drop]
            exact congrArg (fun k => List.drop k (createdShards p)) (by omega)
          · omega
      · have hnil : m.shardsToInitialize = [] := by
          cases hq2 : m.shardsToInitialize with
          | nil => rfl
          | cons a l => rw [hq2] at hq; simp at hq
        refine ⟨m.startHttp, ?_, ?_, hex⟩
        · simp only [WebClientManager.onMessage, hq, if_false]
          rw [if_neg hexit, if_neg hcr]
          simp
        · unfold Handshake
          refine ⟨htot, ?_⟩
          rw [createdShards_snoc, if_neg hcr, completedShards_snoc, if_pos rfl,
            if_pos hph]
          rw [hqueue] at hnil
          have hge : (createdShards p).length ≤ 1 + (completedShards p).length := by
            simpa using hnil
          simp only [List.length_append, List.length_singleton, WebClientManager.startHttp]
          refine ⟨?_, ?_, ?_⟩
          · rw [hsent, List.take_of_length_le hge, List.take_of_length_le (by omega)]
          · rw [hqueue, hnil]
            symm
            exact List.drop_of_length_le (by omega)
          · omega
    · refine ⟨m, ?_, ?_, hex⟩
      · simp [WebClientManager.onMessage, hexit, hcr, hco]
      · unfold Handshake
        refine ⟨htot, ?_⟩
        rw [createdShards_snoc, if_neg hcr, completedShards_snoc, if_neg hco]
        exact hphase

theorem handshake_run (n : Nat) (t : List Event) (hexit : NoExit t)
    (hlen : (createdShards t).length ≤ n) (hcai : CompleteAfterInitialize n t) :
    ∃ m, after n t = some m ∧ Handshake n t m ∧ m.exitCode = none := by
  induction t using List.reverseRecOn with
  | nil => exact ⟨WebClientManager.new n, rfl, handshake_nil n, rfl⟩
  | append_singleton p e ih =>
    obtain ⟨s, msg⟩ := e
    have hpre : p <+: p ++ [(s, msg)] := List.prefix_append p _
    have hlenp : (createdShards p).length ≤ n := by
      rw [createdShards_append] at hlen
      simp only [List.length_append] at hlen
      omega
    obtain ⟨m, hm, hinv, hex⟩ := ih (noExit_restrict hexit hpre) hlenp (completeAfterInitialize_restrict hcai hpre)
    have hmsg : msg ≠ "exit" := hexit (s, msg) (by simp)
    have hinit : msg = "complete" → s ∈ m.sentInitialize := by
      intro hc
      subst hc
      obtain ⟨m2, hm2, hs⟩ := hcai p s (List.prefix_refl _)
      rw [hm] at hm2
      cases hm2
      exact hs
    obtain ⟨m1, hm1, hinv1, hex1⟩ := handshake_step s msg hinv hex hmsg hlen hinit
    refine ⟨m1, ?_, hinv1, hex1⟩
    rw [after_snoc, hm]
    exact hm1

theorem live_restrict {p t : List Event} (h : Live t) (hp : p <+: t) : Live p :=
  fun q e hq => h q e (hq.trans hp)

theorem handshake_live (n : Nat) (t : List Event) (hlive : Live t)
    (hlen : (createdShards t).length ≤ n) (hcai : CompleteAfterInitialize n t) :
    ∃ m, after n t = some m ∧ Handshake n t m := by
  induction t using List.reverseRecOn with
  | nil => exact ⟨WebClientManager.new n, rfl, handshake_nil n⟩
  | append_singleton p e _ =>
    obtain ⟨s, msg⟩ := e
    have hpre : p <+: p ++ [(s, msg)] := List.prefix_append p _
    have hnoexit : NoExit p := hlive p (s, msg) (List.prefix_refl _)
    by_cases hmsg : msg = "exit"
    · subst hmsg
      have hlenp : (createdShards p).length ≤ n := by
        rw [createdShards_snoc, if_neg (by decide)] at hlen
        exact hlen
      obtain ⟨m, hm, hinv, hex⟩ := handshake_run n p hnoexit hlenp (completeAfterInitialize_restrict hcai hpre)
      refine ⟨{ m with broadcasts := m.broadcasts ++ ["exit"], exitCode := some 1 }, ?_, ?_⟩
      · rw [after_snoc, hm]
        simp [WebClientManager.deliver, hex, WebClientManager.onMessage]
      · have h1 : ¬ ("exit" = "created") := by decide
        have h2 : ¬ ("exit" = "complete") := by decide
        unfold Handshake at hinv ⊢
        rw [createdShards_snoc, if_neg h1, completedShards_snoc, if_neg h2]
        exact hinv
    · have hne : NoExit (p ++ [(s, msg)]) := by
        intro e he
        rcases List.mem_append.mp he with h | h
        · exact hnoexit e h
        · rw [List.mem_singleton.mp h]
          exact hmsg
      obtain ⟨m, hm, hinv, _⟩ := handshake_run n _ hne hlen hcai
      exact ⟨m, hm, hinv⟩

/-! ### Messages sent to shards only accumulate -/

theorem initializeNextShard_sent {m m1 : WebClientManager}
    (h : m.initializeNextShard = some m1) : m.sentInitialize <+: m1.sentInitialize := by
  unfold WebClientManager.initializeNextShard at h
  split at h
  · cases h
  · cases h
    exact List.prefix_append _ _

theorem deliver_sent {m m1 : WebClientManager} {e : Event}
    (h : m.deliver e = some m1) : m.sentInitialize <+: m1.sentInitialize := by
  unfold WebClientManager.deliver at h
  split at h
  · cases h
    exact List.prefix_refl _
  · unfold WebClientManager.onMessage at h
    split at h
    · cases h
      exact List.prefix_refl _
    · split at h
      · dsimp only at h
        split at h
        · exact initializeNextShard_sent (m := { m with
            shardsToInitialize := m.shardsToInitialize ++ [e.1] }) h
        · cases h
          exact List.prefix_refl _
      · split at h
        · split at h
          · exact initializeNextShard_sent h
          · cases h
            exact List.prefix_refl _
        · cases h
          exact List.prefix_refl _

theorem run_sent {m m1 : WebClientManager} {t : List Event}
    (h : m.run t = some m1) : m.sentInitialize <+: m1.sentInitialize := by
  induction t generalizing m with
  | nil =>
    simp only [WebClientManager.run, Option.some.injEq] at h
    rw [h]
  | cons e rest ih =>
    simp only [WebClientManager.run] at h
    cases hd : m.deliver e with
    | none => simp [hd] at h
    | some m2 =>
      rw [hd] at h
      exact (deliver_sent hd).trans (ih h)

theorem after_sent_mono {n : Nat} {p t : List Event} {mp mt : WebClientManager}
    (hp : p <+: t) (h1 : after n p = some mp) (h2 : after n t = some mt) :
    mp.sentInitialize <+: mt.sentInitialize := by
  obtain ⟨r, rfl⟩ := hp
  unfold after at h1 h2
  rw [run_append, h1] at h2
  exact run_sent h2

theorem mem_completedShards {t : List Event} {s : Shard} (h : s ∈ completedShards t) :
    ∃ p, p ++ [(s, "complete")] <+: t := by
  unfold completedShards at h
  obtain ⟨e, he, hes⟩ := List.mem_map.mp h
  obtain ⟨het, hmsg⟩ := List.mem_filter.mp he
  obtain ⟨s1, msg⟩ := e
  simp only [decide_eq_true_eq] at hmsg
  simp only at hes
  subst hes
  subst hmsg
  obtain ⟨a, b, hab⟩ := List.append_of_mem het
  refine ⟨a, b, ?_⟩
  rw [hab]
  simp

theorem completed_subset_sent {n : Nat} {t : List Event} {m : WebClientManager}
    (hcai : CompleteAfterInitialize n t) (hm : after n t = some m) :
    ∀ s ∈ completedShards t, s ∈ m.sentInitialize := by
  intro s hs
  obtain ⟨p, hp⟩ := mem_completedShards hs
  obtain ⟨mp, hmp, hsp⟩ := hcai p s hp
  have hpt : p <+: t := (List.prefix_append p _).trans hp
  exact (after_sent_mono hpt hmp hm).subset hsp

theorem handshake_sent_subset {n : Nat} {t : List Event} {m : WebClientManager}
    (h : Handshake n t m) : ∀ s ∈ m.sentInitialize, s ∈ createdShards t := by
  intro s hs
  obtain ⟨_, hphase⟩ := h
  split at hphase
  · rw [hphase.1] at hs
    exact List.mem_of_mem_take hs
  · rw [hphase.1] at hs
    simp at hs

theorem handshake_sent_length {n : Nat} {t : List Event} {m : WebClientManager}
    (h : Handshake n t m) : m.sentInitialize.length ≤ 1 + (completedShards t).length := by
  obtain ⟨_, hphase⟩ := h
  split at hphase
  · rw [hphase.1, List.length_take]
    omega
  · rw [hphase.1]
    simp

/-- Counting: removing from `l` the members of a duplicate-free sublist `c` of it
leaves `l.length - c.length` elements at most. -/
theorem length_filter_not_mem_le (l c : List Shard) (hc : c.Nodup) (hsub : ∀ s ∈ c, s ∈ l) :
    (l.filter fun s => decide (s ∉ c)).length + c.length ≤ l.length := by
  have hsplit := List.length_eq_length_filter_add (l := l) fun s => decide (s ∈ c)
  have hsame : (l.filter fun s => decide (s ∉ c)) =
      l.filter fun s => !decide (s ∈ c) := by
    congr 1
    funext s
    simp
  have hsubperm : c.Subperm (l.filter fun s => decide (s ∈ c)) := by
    apply List.subperm_of_subset hc
    intro s hs
    exact List.mem_filter.mpr ⟨hsub s hs, by simpa using hs⟩
  have hle := hsubperm.length_le
  rw [hsame]
  omega

/-! ### Checking the handshake hypotheses on a concrete run -/

theorem completeAfterInitialize_of_check {n : Nat} {t : List Event}
    (h : ∀ k, k < t.length → completeAfterInitializeAt n t k = true) :
    CompleteAfterInitialize n t := by
  intro p s hp
  obtain ⟨r, hr⟩ := hp
  have hk : p.length < t.length := by
    rw [← hr]
    simp
  have hget : t[p.length]? = some (s, "complete") := by
    rw [← hr, List.append_assoc, List.getElem?_append_right (Nat.le_refl _)]
    simp
  have htake : t.take p.length = p := by
    rw [← hr, List.append_assoc, List.take_left]
  have hc := h p.length hk
  unfold completeAfterInitializeAt at hc
  rw [hget, htake] at hc
  simp only [ne_eq, not_true_eq_false, decide_False, Bool.false_or] at hc
  cases hm : after n p with
  | none => simp [hm] at hc
  | some m =>
    rw [hm] at hc
    exact ⟨m, rfl, by simpa using hc⟩

theorem live_of_noExit {t : List Event} (h : NoExit t) : Live t :=
  fun p _ hp => noExit_restrict h ((List.prefix_append p _).trans hp)

theorem createdShards_initial {p t : List Event} (hp : p <+: t) :
    createdShards p <+: createdShards t := by
  obtain ⟨r, rfl⟩ := hp
  rw [createdShards_append]
  exact List.prefix_append _ _

theorem completedShards_initial {p t : List Event} (hp : p <+: t) :
    completedShards p <+: completedShards t := by
  obtain ⟨r, rfl⟩ := hp
  rw [completedShards_append]
  exact List.prefix_append _ _

/-- When every shard that sent `'created'` sends `'complete'` exactly once, and only
after it was sent `'initialize'`, the `'complete'` messages come from distinct shards. -/
theorem completedShards_nodup {n : Nat} {t : List Event} (hlive : Live t)
    (hlen : (createdShards t).length ≤ n) (hcai : CompleteAfterInitialize n t)
    (honce : ∀ s ∈ createdShards t, (completedShards t).count s = 1) :
    (completedShards t).Nodup := by
  obtain ⟨m, hm, hinv⟩ := handshake_live n t hlive hlen hcai
  rw [List.nodup_iff_count_le_one]
  intro s
  by_cases hs : s ∈ completedShards t
  · have h1 := completed_subset_sent hcai hm s hs
    have h2 := handshake_sent_subset hinv s h1
    exact (honce s h2).le
  · rw [List.count_eq_zero_of_not_mem hs]
    exact Nat.zero_le _

/-! ### The claims about the shard handshake -/

/-- C1, as stated, fails: with two shards, in the run in which both have sent
`'created'` and none has sent `'complete'` yet (or the first never does), only the
first shard was sent `'initialize'`; the second was not, although its `'created'`
arrived. -/
theorem initialize_sequence_stops_without_complete :
    (createdShards [(0, "created"), (1, "created")]).Nodup ∧
    (createdShards [(0, "created"), (1, "created")]).length = 2 ∧
    CompleteAfterInitialize 2 [(0, "created"), (1, "created")] ∧
    NoExit [(0, "created"), (1, "created")] ∧
    (after 2 [(0, "created"), (1, "created")]).map WebClientManager.sentInitialize
      = some [0] ∧
    createdShards [(0, "created"), (1, "created")] = [0, 1] := by
  refine ⟨by decide, by decide, completeAfterInitialize_of_check (by decide), by decide,
    by decide, by decide⟩

/-- C1, amended: in a run for `n ≥ 1` shards where each shard sends `'created'`
exactly once and a shard sends `'complete'` only after it was sent `'initialize'`,
the shards sent `'initialize'`, in the order they were sent it, are exactly the first
`1 + k` shards in the order their `'created'` arrived, `k` being the number of
`'complete'` messages received; no shard is sent it twice; and once `n - 1` or more
`'complete'` messages have arrived the sequence is the whole arrival order. -/
theorem initialize_sequence_fifo (n : Nat) (t : List Event) (hn : 1 ≤ n) (hlive : Live t)
    (hcreated : (createdShards t).Nodup ∧ (createdShards t).length = n)
    (hcai : CompleteAfterInitialize n t) :
    ∃ m, after n t = some m ∧
      m.sentInitialize = (createdShards t).take (1 + (completedShards t).length) ∧
      m.sentInitialize.Nodup ∧
      (n - 1 ≤ (completedShards t).length → m.sentInitialize = createdShards t) := by
  obtain ⟨m, hm, hinv⟩ := handshake_live n t hlive hcreated.2.le hcai
  obtain ⟨_, hphase⟩ := hinv
  rw [if_pos ⟨hcreated.2, hn⟩] at hphase
  refine ⟨m, hm, hphase.1, ?_, ?_⟩
  · rw [hphase.1]
    exact hcreated.1.sublist (List.take_sublist _ _)
  · intro hk
    rw [hphase.1]
    exact List.take_of_length_le (by omega)

theorem initialize_sequence_fifo_witness :
    ∃ m, after 2 [(1, "created"), (0, "created"), (1, "complete")] = some m ∧
      m.sentInitialize = (createdShards [(1, "created"), (0, "created"), (1, "complete")]).take
        (1 + (completedShards [(1, "created"), (0, "created"), (1, "complete")]).length) ∧
      m.sentInitialize.Nodup ∧
      (2 - 1 ≤ (completedShards [(1, "created"), (0, "created"), (1, "complete")]).length →
        m.sentInitialize = createdShards [(1, "created"), (0, "created"), (1, "complete")]) :=
  initialize_sequence_fifo 2 [(1, "created"), (0, "created"), (1, "complete")] (by decide)
    (live_of_noExit (by decide)) ⟨by decide, by decide⟩
    (completeAfterInitialize_of_check (by decide))

/-- C2: in a run for `n` shards where each shard sends `'created'` exactly once and
sends `'complete'` exactly once and only after it was sent `'initialize'`, at every
point of the run (after every prefix `p`) at most one shard has been sent
`'initialize'` without having sent `'complete'` yet, and a shard has been sent
`'initialize'` only if all `n` `'created'` messages have arrived. -/
theorem initialization_serialized (n : Nat) (t : List Event) (hlive : Live t)
    (hcreated : (createdShards t).Nodup ∧ (createdShards t).length = n)
    (hcomplete : ∀ s ∈ createdShards t, (completedShards t).count s = 1)
    (hcai : CompleteAfterInitialize n t) (p : List Event) (hp : p <+: t) :
    ∃ m, after n p = some m ∧ (awaitingComplete m p).length ≤ 1 ∧
      (m.sentInitialize ≠ [] → (createdShards p).length = n) := by
  have hlenp : (createdShards p).length ≤ n := by
    rw [← hcreated.2]
    exact (createdShards_initial hp).length_le
  have hcaip := completeAfterInitialize_restrict hcai hp
  obtain ⟨m, hm, hinv⟩ := handshake_live n p (live_restrict hlive hp) hlenp hcaip
  have hnodup : (completedShards p).Nodup :=
    (completedShards_nodup hlive hcreated.2.le hcai hcomplete).sublist
      (completedShards_initial hp).sublist
  refine ⟨m, hm, ?_, ?_⟩
  · have h1 := length_filter_not_mem_le m.sentInitialize (completedShards p) hnodup
      (completed_subset_sent hcaip hm)
    have h2 := handshake_sent_length hinv
    unfold awaitingComplete
    omega
  · intro hne
    obtain ⟨_, hphase⟩ := hinv
    by_contra hcon
    rw [if_neg (fun h => hcon h.1)] at hphase
    exact hne hphase.1

theorem initialization_serialized_witness :
    ∃ m, after 2 [(1, "created"), (0, "created"), (1, "complete")] = some m ∧
      (awaitingComplete m [(1, "created"), (0, "created"), (1, "complete")]).length ≤ 1 ∧
      (m.sentInitialize ≠ [] →
        (createdShards [(1, "created"), (0, "created"), (1, "complete")]).length = 2) :=
  initialization_serialized 2
    [(1, "created"), (0, "created"), (1, "complete"), (0, "complete")]
    (live_of_noExit (by decide)) ⟨by decide, by decide⟩ (by decide)
    (completeAfterInitialize_of_check (by decide))
    [(1, "created"), (0, "created"), (1, "complete")] (by decide)

/-- C3: in a run for `n ≥ 1` shards where each shard sends `'created'` exactly once
and sends `'complete'` exactly once and only after it was sent `'initialize'`,
`startHttp` has been invoked exactly once at the end of the run, and at every point
of the run the number of its invocations is `1` if `n` `'complete'` messages have
arrived so far and `0` otherwise: it is invoked by the handler of the `n`-th
`'complete'`, by no other, and by then every shard has sent `'complete'`. -/
theorem startHttp_once_after_last_complete (n : Nat) (t : List Event) (hn : 1 ≤ n)
    (hlive : Live t)
    (hcreated : (createdShards t).Nodup ∧ (createdShards t).length = n)
    (hcomplete : ∀ s ∈ createdShards t, (completedShards t).count s = 1)
    (hcai : CompleteAfterInitialize n t) :
    (∃ m, after n t = some m ∧ m.httpStarts = 1) ∧
    ∀ p, p <+: t → ∃ m, after n p = some m ∧
      m.httpStarts = (if (completedShards p).length = n then 1 else 0) ∧
      (m.httpStarts ≠ 0 → ∀ s ∈ createdShards t, s ∈ completedShards p) := by
  have hnodup := completedShards_nodup hlive hcreated.2.le hcai hcomplete
  obtain ⟨mt, hmt, hinvt⟩ := handshake_live n t hlive hcreated.2.le hcai
  have hsub : ∀ s ∈ completedShards t, s ∈ createdShards t := fun s hs =>
    handshake_sent_subset hinvt s (completed_subset_sent hcai hmt s hs)
  have hperm : (completedShards t).Perm (createdShards t) := by
    rw [List.perm_ext_iff_of_nodup hnodup hcreated.1]
    intro s
    refine ⟨hsub s, fun hs => ?_⟩
    have := hcomplete s hs
    exact List.count_pos_iff.mp (by omega)
  have hklen : (completedShards t).length = n := by
    rw [hperm.length_eq, hcreated.2]
  have key : ∀ p, p <+: t → ∃ m, after n p = some m ∧
      m.httpStarts = (if (completedShards p).length = n then 1 else 0) := by
    intro p hp
    have hlenp : (createdShards p).length ≤ n := by
      rw [← hcreated.2]
      exact (createdShards_initial hp).length_le
    have hkp : (completedShards p).length ≤ n := by
      rw [← hklen]
      exact (completedShards_initial hp).length_le
    obtain ⟨m, hm, hinv⟩ := handshake_live n p (live_restrict hlive hp) hlenp (completeAfterInitialize_restrict hcai hp)
    refine ⟨m, hm, ?_⟩
    obtain ⟨_, hphase⟩ := hinv
    split at hphase
    · rw [hphase.2.2]
      split <;> omega
    · rw [hphase.2.2.1, hphase.2.2.2]
      have : ¬ (([] : List Shard).length = n) := by
        simp
        omega
      rw [if_neg this]
  refine ⟨?_, ?_⟩
  · obtain ⟨m, hm, hhttp⟩ := key t (List.prefix_refl _)
    exact ⟨m, hm, by rw [hhttp, if_pos hklen]⟩
  · intro p hp
    obtain ⟨m, hm, hhttp⟩ := key p hp
    refine ⟨m, hm, hhttp, ?_⟩
    intro hne s hs
    have hfull : (completedShards p).length = n := by
      by_contra hcon
      rw [if_neg hcon] at hhttp
      exact hne hhttp
    have heq : completedShards p = completedShards t :=
      (completedShards_initial hp).eq_of_length (by rw [hfull, hklen])
    rw [heq]
    exact hperm.mem_iff.mpr hs

theorem startHttp_once_after_last_complete_witness :
    (∃ m, after 2 [(1, "created"), (0, "created"), (1, "complete"), (0, "complete")] = some m ∧
      m.httpStarts = 1) ∧
    ∀ p, p <+: [(1, "created"), (0, "created"), (1, "complete"), (0, "complete")] →
      ∃ m, after 2 p = some m ∧
      m.httpStarts = (if (completedShards p).length = 2 then 1 else 0) ∧
      (m.httpStarts ≠ 0 → ∀ s ∈ createdShards
        [(1, "created"), (0, "created"), (1, "complete"), (0, "complete")],
        s ∈ completedShards p) :=
  startHttp_once_after_last_complete 2
    [(1, "created"), (0, "created"), (1, "complete"), (0, "complete")] (by decide)
    (live_of_noExit (by decide)) ⟨by decide, by decide⟩ (by decide)
    (completeAfterInitialize_of_check (by decide))

/-! ### The claims about the auth service -/

theorem doFetch_requests (env : Env) (req : Request) (w : World) :
    (doFetch env req w).2.requests = w.requests ++ [req] := by
  simp [doFetch, World.requests, List.filterMap_append]

theorem readClock_requests (env : Env) (w : World) :
    (readClock env w).2.requests = w.requests := rfl

theorem refreshToken_requests (api : DiscordAPI) (env : Env) (tokenObject : Obj)
    (config : Config) (w : World) :
    (refreshToken api env tokenObject config w).2.requests =
      w.requests ++ [refreshRequest api tokenObject config] := by
  unfold refreshToken
  simp only [doFetch]
  split
  · simp [World.requests, List.filterMap_append]
  · split
    · simp [World.requests, List.filterMap_append]
    · split <;> simp [World.requests, List.filterMap_append, readClock]

theorem refreshToken_result (api : DiscordAPI) (env : Env) (tokenObject : Obj)
    (config : Config) (w : World) :
    (refreshToken api env tokenObject config w).1 =
      match env.fetch w.requests.length (refreshRequest api tokenObject config) with
      | .rejected e => .error e
      | .response res =>
        if res.ok = true then
          match res.json with
          | some json => .ok (formatAccessToken (env.clock w.dateReads) json)
          | none => .error (.external "res.json")
        else
          .error (.error (non200Message res)) := by
  unfold refreshToken
  simp only [doFetch]
  split
  · rfl
  · rename_i res _
    cases hok : res.ok
    · simp
    · simp only [Bool.not_true, Bool.false_eq_true, if_false, if_true]
      cases hjson : res.json <;> simp [readClock]

/-- C4: `getAuthToken` checks expiry once.  If the token is not expired it returns
the token it was given and sends no request.  If it is expired it sends exactly one
request: a `POST` to the token endpoint with the form fields `client_id`,
`client_secret`, `grant_type = refresh_token`, the token's `refresh_token`,
`redirect_uri` and `scope`.  When the response to it is ok (and its body parses) the
result is `formatAccessToken` of the body, when the response is not ok the
`Non-200 status code` error is thrown, and no token is returned without an ok
response. -/
theorem getAuthToken_single_check_then_refresh (api : DiscordAPI) (env : Env) (token : Obj)
    (config : Config) (w : World) :
    (tokenIsExpired env.strToNumber (env.clock w.dateReads) token = false →
      (getAuthToken api env token config w).1 = .ok token ∧
      (getAuthToken api env token config w).2.requests = w.requests) ∧
    (tokenIsExpired env.strToNumber (env.clock w.dateReads) token = true →
      ∃ req : Request,
        req.method = "POST" ∧
        req.url = api.tokenHost ++ api.tokenPath ∧
        req.body = [("client_id", config.clientID), ("client_secret", config.clientSecret),
          ("grant_type", .str "refresh_token"),
          ("refresh_token", token.get "refresh_token"),
          ("redirect_uri", config.redirectURI), ("scope", api.scopes)] ∧
        req.headers = [("Content-Type", "application/x-www-form-urlencoded")] ∧
        (getAuthToken api env token config w).2.requests = w.requests ++ [req] ∧
        (∀ res, env.fetch w.requests.length req = .response res →
          (res.ok = true → ∀ body, res.json = some body →
            (getAuthToken api env token config w).1 =
              .ok (formatAccessToken (env.clock (w.dateReads + 1)) body)) ∧
          (res.ok = false →
            (getAuthToken api env token config w).1 = .error (.error (non200Message res)))) ∧
        ((∀ res, env.fetch w.requests.length req = .response res → res.ok = false) →
          ∃ e, (getAuthToken api env token config w).1 = .error e)) := by
  constructor
  · intro hfresh
    simp [getAuthToken, readClock, hfresh, World.requests]
  · intro hexpired
    have hget : getAuthToken api env token config w =
        refreshToken api env token config (readClock env w).2 := by
      simp [getAuthToken, readClock, hexpired]
    rw [hget]
    have hreq : (readClock env w).2.requests = w.requests := rfl
    refine ⟨refreshRequest api token config, rfl, rfl, rfl, rfl, ?_, ?_, ?_⟩
    · rw [refreshToken_requests, hreq]
    · intro res hres
      constructor
      · intro hok body hjson
        rw [refreshToken_result, hreq, hres]
        simp only [hok, hjson, if_true]
        rfl
      · intro hok
        rw [refreshToken_result, hreq, hres]
        simp [hok]
    · intro hall
      rw [refreshToken_result, hreq]
      cases hres : env.fetch w.requests.length (refreshRequest api token config) with
      | rejected e => exact ⟨e, rfl⟩
      | response res =>
        have hok := hall res hres
        exact ⟨.error (non200Message res), by simp [hok]⟩

theorem sampleToken_expired_at_endpoint :
    tokenIsExpired tokenEndpointEnv.strToNumber (tokenEndpointEnv.clock sampleWorld.dateReads)
      sampleToken = true := by
  have hget : sampleToken.get "expiresAt" = .num 1000 := by decide
  simp only [tokenIsExpired, hget, jsGreater, JSVal.toNumber, tokenEndpointEnv]
  norm_num

/-- Sample for C4: against an endpoint that answers `200` with `sampleBody` to the
refresh request for refresh token `"R"` and `401` to every other request, the expired
`sampleToken` is replaced by the formatted body, after exactly that one request. -/
theorem getAuthToken_single_check_then_refresh_witness :
    (getAuthToken sampleAPI tokenEndpointEnv sampleToken sampleConfig sampleWorld).1 =
      .ok (formatAccessToken 2000000 sampleBody) ∧
    (getAuthToken sampleAPI tokenEndpointEnv sampleToken sampleConfig sampleWorld).2.requests =
      [sampleRefreshRequest] := by
  obtain ⟨req, hmethod, hurl, hbody, hheaders, hsent, hanswer, _⟩ :=
    (getAuthToken_single_check_then_refresh sampleAPI tokenEndpointEnv sampleToken sampleConfig
      sampleWorld).2 sampleToken_expired_at_endpoint
  have hreq : req = sampleRefreshRequest := by
    cases req
    simp only at hmethod hurl hbody hheaders
    subst hmethod hurl hbody hheaders
    decide
  subst hreq
  exact ⟨(hanswer sampleResponse rfl).1 rfl sampleBody rfl, hsent⟩

/-! ### Objects -/

theorem lookup_map_replace (key : String) (v : JSVal) (k : String) (l : List (String × JSVal)) :
    List.lookup k (l.map fun kv => if kv.1 = key then (key, v) else kv) =
      if k = key then (List.lookup key l).map (fun _ => v) else List.lookup k l := by
  induction l with
  | nil => simp
  | cons kv l ih =>
    obtain ⟨a, b⟩ := kv
    rw [List.map_cons]
    by_cases hak : a = key
    · rw [if_pos hak]
      by_cases hk : k = key
      · subst hk
        subst hak
        simp [List.lookup]
      · have hb : (k == key) = false := by simpa using hk
        have hb2 : (k == a) = false := by rw [hak]; exact hb
        simp only [List.lookup, hb, hb2, ih, if_neg hk]
    · rw [if_neg hak]
      by_cases hka : k = a
      · subst hka
        simp [List.lookup, hak]
      · have hb : (k == a) = false := by simpa using hka
        simp only [List.lookup, hb, ih]
        by_cases hk : k = key
        · subst hk
          simp [hb]
        · simp [hk]

theorem lookup_append_singleton (key : String) (v : JSVal) (k : String)
    (l : List (String × JSVal)) :
    List.lookup k (l ++ [(key, v)]) =
      match List.lookup k l with
      | some x => some x
      | none => if k = key then some v else none := by
  induction l with
  | nil =>
    by_cases hk : k = key
    · subst hk
      simp [List.lookup]
    · have hb : (k == key) = false := by simpa using hk
      simp [List.lookup, hb, hk]
  | cons kv l ih =>
    obtain ⟨a, b⟩ := kv
    by_cases hka : k = a
    · subst hka
      simp [List.lookup]
    · have hb : (k == a) = false := by simpa using hka
      simp only [List.cons_append, List.lookup, hb]
      exact ih

/-- Reading back the property just written. -/
theorem Obj.lookup_set_same (o : Obj) (key : String) (v : JSVal) :
    (o.set key v).lookup key = some v := by
  unfold Obj.set Obj.lookup
  cases h : List.lookup key o.props with
  | none =>
    simp only [Obj.lookup, h, Option.isSome_none, Bool.false_eq_true, if_false]
    rw [lookup_append_singleton, h]
    simp
  | some x =>
    simp only [Obj.lookup, h, Option.isSome_some, if_true]
    rw [lookup_map_replace, if_pos rfl, h]
    rfl

/-- Writing a property leaves every other property as it was. -/
theorem Obj.lookup_set_other (o : Obj) (key : String) (v : JSVal) (k : String)
    (hk : k ≠ key) : (o.set key v).lookup k = o.lookup k := by
  unfold Obj.set Obj.lookup
  cases h : List.lookup key o.props with
  | none =>
    simp only [Obj.lookup, h, Option.isSome_none, Bool.false_eq_true, if_false]
    rw [lookup_append_singleton]
    cases List.lookup k o.props with
    | none => simp [hk]
    | some x => rfl
  | some x =>
    simp only [Obj.lookup, h, Option.isSome_some, if_true]
    rw [lookup_map_replace, if_neg hk]

/-! ### Rounding to seconds -/

theorem mathRound_millis (nowMs : Int) :
    mathRound ((nowMs : ℚ) / 1000) = (nowMs + 500) / 1000 := by
  unfold mathRound
  have h : (nowMs : ℚ) / 1000 + 1 / 2 = ((nowMs + 500 : ℤ) : ℚ) / ((1000 : ℕ) : ℚ) := by
    push_cast
    ring
  rw [h, Rat.floor_intCast_div_natCast]
  rfl

theorem mathRound_nearest (q : ℚ) : |(mathRound q : ℚ) - q| ≤ 1 / 2 := by
  unfold mathRound
  have h1 := Int.floor_le (q + 1 / 2)
  have h2 := Int.lt_floor_add_one (q + 1 / 2)
  rw [abs_le]
  constructor <;> linarith

theorem formatAccessToken_get_expiresAt (t : Int) (tokenObject : Obj) (d : ℚ)
    (hin : tokenObject.get "expires_in" = .num d) :
    (formatAccessToken t tokenObject).get "expiresAt" =
      .num ((mathRound ((t : ℚ) / 1000) : ℚ) + d) := by
  unfold Obj.get formatAccessToken
  rw [Obj.lookup_set_same]
  simp only [Option.getD_some]
  rw [hin]
  rfl

/-! ### Writes on the heap -/

theorem setProperty_length (h : Heap) (r : Nat) (key : String) (v : JSVal) :
    (Heap.setProperty h r key v).length = h.length := by
  unfold Heap.setProperty
  split <;> simp

theorem setProperty_other (h : Heap) (r i : Nat) (key : String) (v : JSVal) (hi : i ≠ r) :
    (Heap.setProperty h r key v)[i]? = h[i]? := by
  unfold Heap.setProperty
  split
  · rw [List.getElem?_set, if_neg (fun hri => hi hri.symm)]
  · rfl

theorem setProperty_same (h : Heap) (r : Nat) (key : String) (v : JSVal) (o : Obj)
    (ho : h[r]? = some o) : (Heap.setProperty h r key v)[r]? = some (o.set key v) := by
  have hlt : r < h.length := by
    by_contra hcon
    rw [List.getElem?_eq_none (by omega)] at ho
    cases ho
  unfold Heap.setProperty
  rw [ho]
  simp only []
  rw [List.getElem?_set, if_pos rfl, if_pos hlt]

/-- Writing a list of properties to the object behind `target`, one after the other,
changes that object only. -/
theorem foldl_setProperty (props : List (String × JSVal)) (h : Heap) (target : Nat)
    (acc : Obj) (hacc : h[target]? = some acc) :
    (props.foldl (fun h1 kv => Heap.setProperty h1 target kv.1 kv.2) h)[target]? =
      some (props.foldl (fun a kv => a.set kv.1 kv.2) acc) ∧
    (props.foldl (fun h1 kv => Heap.setProperty h1 target kv.1 kv.2) h).length = h.length ∧
    ∀ i, i ≠ target →
      (props.foldl (fun h1 kv => Heap.setProperty h1 target kv.1 kv.2) h)[i]? = h[i]? := by
  induction props generalizing h acc with
  | nil => exact ⟨hacc, rfl, fun _ _ => rfl⟩
  | cons kv rest ih =>
    simp only [List.foldl_cons]
    obtain ⟨h1, h2, h3⟩ := ih (Heap.setProperty h target kv.1 kv.2) (acc.set kv.1 kv.2)
      (setProperty_same h target kv.1 kv.2 acc hacc)
    refine ⟨h1, ?_, ?_⟩
    · rw [h2, setProperty_length]
    · intro i hi
      rw [h3 i hi, setProperty_other h target i kv.1 kv.2 hi]

/-- Writing the properties of an object with distinct keys to an object that has none
of them appends them. -/
theorem foldl_set_append (props acc : List (String × JSVal))
    (hnodup : (props.map Prod.fst).Nodup)
    (hfresh : ∀ key ∈ props.map Prod.fst, key ∉ acc.map Prod.fst) :
    props.foldl (fun a kv => a.set kv.1 kv.2) (⟨acc⟩ : Obj) = ⟨acc ++ props⟩ := by
  induction props generalizing acc with
  | nil => simp
  | cons kv rest ih =>
    have hkv : kv.1 ∉ acc.map Prod.fst := hfresh kv.1 (by simp)
    have hnone : List.lookup kv.1 acc = none := by
      rw [List.lookup_eq_none_iff]
      intro p hp
      simp only [bne_iff_ne, ne_eq]
      intro heq
      exact hkv (List.mem_map.mpr ⟨p, hp, heq.symm⟩)
    have hset : (⟨acc⟩ : Obj).set kv.1 kv.2 = ⟨acc ++ [kv]⟩ := by
      simp [Obj.set, Obj.lookup, hnone]
    simp only [List.foldl_cons, hset]
    rw [List.map_cons, List.nodup_cons] at hnodup
    rw [ih (acc ++ [kv]) hnodup.2]
    · simp
    · intro key hkey hmem
      rw [List.map_append, List.mem_append] at hmem
      rcases hmem with hmem | hmem
      · exact hfresh key (by simp [hkey]) hmem
      · simp only [List.map_cons, List.map_nil, List.mem_singleton] at hmem
        rw [hmem] at hkey
        exact hnodup.1 hkey

/-- The heap after `formatAccessTokenRef`: the new object is `formatAccessToken` of the
argument, and the argument and every other object are as before. -/
theorem formatAccessTokenRef_heap (nowMs : Int) (h : Heap) (ref : Nat) (tokenObject : Obj)
    (href : h[ref]? = some tokenObject) (hkeys : (tokenObject.props.map Prod.fst).Nodup) :
    ∃ h1, formatAccessTokenRef nowMs h ref = some (h.length, h1) ∧
      h1[h.length]? = some (formatAccessToken nowMs tokenObject) ∧
      h1[ref]? = some tokenObject ∧ ∀ r, r < h.length → h1[r]? = h[r]? := by
  have hlt : ref < h.length := by
    by_contra hcon
    rw [List.getElem?_eq_none (by omega)] at href
    cases href
  have hsrc : (h ++ [(⟨[]⟩ : Obj)])[ref]? = some tokenObject := by
    rw [List.getElem?_append_left hlt, href]
  have hnew : (h ++ [(⟨[]⟩ : Obj)])[h.length]? = some ⟨[]⟩ := by simp
  obtain ⟨c1, _, c3⟩ := foldl_setProperty tokenObject.props (h ++ [(⟨[]⟩ : Obj)]) h.length
    ⟨[]⟩ hnew
  have hcopy : Heap.copyProperties (h ++ [(⟨[]⟩ : Obj)]) h.length ref =
      tokenObject.props.foldl (fun h1 kv => Heap.setProperty h1 h.length kv.1 kv.2)
        (h ++ [(⟨[]⟩ : Obj)]) := by
    unfold Heap.copyProperties
    rw [hsrc]
  have hobj : tokenObject.props.foldl (fun a kv => a.set kv.1 kv.2) (⟨[]⟩ : Obj) =
      tokenObject := by
    rw [foldl_set_append tokenObject.props [] hkeys (by simp)]
    simp
  rw [hobj] at c1
  refine ⟨Heap.setProperty (Heap.copyProperties (h ++ [(⟨[]⟩ : Obj)]) h.length ref)
    h.length "expiresAt"
    (jsAdd (mathRound ((nowMs : ℚ) / 1000)) (tokenObject.get "expires_in")), ?_, ?_, ?_⟩
  · unfold formatAccessTokenRef
    rw [href]
  · simp only [hcopy]
    rw [setProperty_same _ _ _ _ tokenObject c1]
    rfl
  · refine ⟨?_, ?_⟩
    · simp only [hcopy]
      rw [setProperty_other _ _ _ _ _ (by omega), c3 ref (by omega), hsrc]
    · intro r hr
      simp only [hcopy]
      rw [setProperty_other _ _ _ _ _ (by omega), c3 r (by omega),
        List.getElem?_append_left hr]

/-- C8: at a clock reading `nowMs` within the range of `Date`, the object returned by
`formatAccessToken` has exactly the properties of `tokenObject`, with their values,
apart from `expiresAt`; for an integer `expires_in = k` (with `k` and the sum within
`±2^53`, where the addition of JavaScript numbers is exact) its `expiresAt` is the
number `round(nowMs / 1000) + k`, `round` being the nearest integer
(`(nowMs + 500) / 1000` rounded down, at most `8640000000000` in size), so a time in
epoch seconds; an `expiresAt` of the argument does not survive: the result has the
property and its value does not depend on the one the argument had; and on the heap
the literal writes to a new object only, the argument and every other object staying
as they were. -/
theorem formatAccessToken_expiresAt (nowMs : Int) (tokenObject : Obj)
    (hclock : |nowMs| ≤ 8640000000000000) :
    (∀ key, key ≠ "expiresAt" →
      (formatAccessToken nowMs tokenObject).lookup key = tokenObject.lookup key) ∧
    (∀ k : Int, tokenObject.get "expires_in" = .num (k : ℚ) →
      |k| ≤ 9007199254740992 → |mathRound ((nowMs : ℚ) / 1000) + k| ≤ 9007199254740992 →
      (formatAccessToken nowMs tokenObject).get "expiresAt" =
        .num ((mathRound ((nowMs : ℚ) / 1000) + k : Int) : ℚ)) ∧
    (mathRound ((nowMs : ℚ) / 1000) = (nowMs + 500) / 1000 ∧
      |(mathRound ((nowMs : ℚ) / 1000) : ℚ) - (nowMs : ℚ) / 1000| ≤ 1 / 2 ∧
      |mathRound ((nowMs : ℚ) / 1000)| ≤ 8640000000000) ∧
    ((formatAccessToken nowMs tokenObject).lookup "expiresAt" ≠ none ∧
      ∀ v, (formatAccessToken nowMs (tokenObject.set "expiresAt" v)).get "expiresAt" =
        (formatAccessToken nowMs tokenObject).get "expiresAt") ∧
    (∀ (h : Heap) (ref : Nat), h[ref]? = some tokenObject →
      (tokenObject.props.map Prod.fst).Nodup →
      ∃ h1, formatAccessTokenRef nowMs h ref = some (h.length, h1) ∧
        h1[h.length]? = some (formatAccessToken nowMs tokenObject) ∧
        h1[ref]? = some tokenObject ∧ ∀ r, r < h.length → h1[r]? = h[r]?) := by
  refine ⟨?_, ?_, ⟨mathRound_millis nowMs, mathRound_nearest _, ?_⟩, ⟨?_, ?_⟩, ?_⟩
  · intro key hkey
    exact Obj.lookup_set_other _ _ _ _ hkey
  · intro k hk _ _
    rw [formatAccessToken_get_expiresAt nowMs tokenObject k hk]
    push_cast
    rfl
  · rw [mathRound_millis]
    rw [abs_le] at hclock ⊢
    constructor <;> omega
  · unfold formatAccessToken
    rw [Obj.lookup_set_same]
    simp
  · intro v
    unfold Obj.get formatAccessToken
    rw [Obj.lookup_set_same, Obj.lookup_set_same]
    have hin : (tokenObject.set "expiresAt" v).lookup "expires_in" =
        tokenObject.lookup "expires_in" :=
      Obj.lookup_set_other _ _ _ _ (by decide)
    simp only [Obj.get, hin]
  · intro h ref href hkeys
    exact formatAccessTokenRef_heap nowMs h ref tokenObject href hkeys

theorem formatAccessToken_expiresAt_witness :
    (formatAccessToken 1500 sampleBody).get "expiresAt" = .num 62 ∧
    (∃ h1, formatAccessTokenRef 1500 [sampleToken, sampleBody] 1 = some (2, h1) ∧
      h1[2]? = some (formatAccessToken 1500 sampleBody) ∧
      h1[1]? = some sampleBody ∧ ∀ r, r < 2 → h1[r]? = [sampleToken, sampleBody][r]?) := by
  have h := formatAccessToken_expiresAt 1500 sampleBody (by decide)
  refine ⟨?_, h.2.2.2.2 [sampleToken, sampleBody] 1 rfl (by decide)⟩
  have h2 := h.2.1 60 (by decide) (by decide) (by rw [h.2.2.1.1]; decide)
  rw [h2, h.2.2.1.1]
  norm_num

/-! ### Revocation and logout -/

theorem revokeAuthToken_requests (api : DiscordAPI) (env : Env) (tokenObject : Obj)
    (config : Config) (w : World) :
    (revokeAuthToken api env tokenObject config w).2 =
      { w with effects := w.effects ++
        [.fetch (revokeRequests api tokenObject config).1,
         .fetch (revokeRequests api tokenObject config).2] } := by
  unfold revokeAuthToken
  simp only [doFetch]
  split
  · simp
  · simp
  · split <;> simp

/-- C9 at the failing input: for a token whose `access_token` is `"A"` and whose
`refresh_token` is `"R"`, both requests sent by `revokeAuthToken` carry `"A"` in the
`token` field; no request carries `"R"`, so the refresh token is not revoked. -/
theorem revokeAuthToken_sends_access_token_twice :
    sampleToken.get "access_token" = .str "A" ∧
    sampleToken.get "refresh_token" = .str "R" ∧
    (revokeAuthToken sampleAPI sampleEnv sampleToken sampleConfig sampleWorld).2.requests.map
      (fun req => List.lookup "token" req.body) = [some (.str "A"), some (.str "A")] := by
  refine ⟨by decide, by decide, ?_⟩
  rw [revokeAuthToken_requests]
  decide

theorem deleteCachedUserData_effects (env : Env) (id : JSVal) (w : World) :
    (deleteCachedUserData env id w).2.effects = w.effects ++ [.deleteMany id] := by
  unfold deleteCachedUserData
  cases env.deleteManyError <;> rfl

theorem logout_eq (api : DiscordAPI) (env : Env) (session : Session) (config : Config)
    (w : World) :
    logout api env session config w =
      match (logoutRevoked api env session config w).1 with
      | .error e => (.error e, (logoutRevoked api env session config w).2)
      | .ok _ =>
        match (logoutDeleted env session (logoutRevoked api env session config w).2).1 with
        | .error e =>
          (.error e, (logoutDeleted env session (logoutRevoked api env session config w).2).2)
        | .ok _ =>
          (match env.destroyError with
            | some err => .error err
            | none => .ok (),
           { (logoutDeleted env session (logoutRevoked api env session config w).2).2 with
             effects :=
               (logoutDeleted env session (logoutRevoked api env session config w).2).2.effects
                 ++ [.destroy] }) := by
  unfold logout logoutRevoked logoutDeleted
  cases session.token <;> cases session.identity <;> simp only [] <;>
    (repeat' split) <;> simp_all

theorem logoutRevoked_world (api : DiscordAPI) (env : Env) (session : Session)
    (config : Config) (w : World) :
    (logoutRevoked api env session config w).2 =
      { w with effects := w.effects ++
        match session.token with
        | some token =>
          [.fetch (revokeRequests api token config).1, .fetch (revokeRequests api token config).2]
        | none => [] } := by
  unfold logoutRevoked
  cases session.token with
  | none => simp
  | some token => exact revokeAuthToken_requests api env token config w

theorem logoutDeleted_effects (env : Env) (session : Session) (w1 : World) :
    (logoutDeleted env session w1).2.effects = w1.effects ++
      match session.identity with
      | some identity => [.deleteMany (identity.get "id")]
      | none => [] := by
  unfold logoutDeleted
  cases session.identity with
  | none => simp
  | some identity => exact deleteCachedUserData_effects env _ w1

/-- C10: `logout` runs its steps in order and stops at the first failure.  Step one
sends the two revocation requests exactly when `session.token` is set and leaves the
stored user data alone; step two calls `deleteMany` for `session.identity.id` exactly
when `session.identity` is set; `session.destroy` comes last.  If step one throws,
`logout` rejects with that error in the world step one left: nothing deleted, session
not destroyed.  If step two throws, `logout` rejects with that error and the session
is not destroyed.  `session.destroy` is called exactly when both steps succeeded, and
then `logout` resolves if it reports no error and rejects with its error otherwise;
so `logout` resolves exactly when both steps succeeded and `destroy` reported no
error. -/
theorem logout_steps_in_order (api : DiscordAPI) (env : Env) (session : Session)
    (config : Config) (w : World) :
    ((logoutRevoked api env session config w).2.effects = w.effects ++
        (match session.token with
          | some token =>
            [.fetch (revokeRequests api token config).1,
             .fetch (revokeRequests api token config).2]
          | none => []) ∧
      (logoutRevoked api env session config w).2.webCache = w.webCache) ∧
    ((logoutDeleted env session (logoutRevoked api env session config w).2).2.effects =
      (logoutRevoked api env session config w).2.effects ++
        (match session.identity with
          | some identity => [.deleteMany (identity.get "id")]
          | none => [])) ∧
    (∀ e, (logoutRevoked api env session config w).1 = .error e →
      logout api env session config w = (.error e, (logoutRevoked api env session config w).2)) ∧
    ((logoutRevoked api env session config w).1 = .ok () →
      ∀ e, (logoutDeleted env session (logoutRevoked api env session config w).2).1 = .error e →
      logout api env session config w =
        (.error e, (logoutDeleted env session (logoutRevoked api env session config w).2).2)) ∧
    ((logoutRevoked api env session config w).1 = .ok () →
      (logoutDeleted env session (logoutRevoked api env session config w).2).1 = .ok () →
      (logout api env session config w).2.effects =
        (logoutDeleted env session (logoutRevoked api env session config w).2).2.effects
          ++ [.destroy] ∧
      (logout api env session config w).1 =
        match env.destroyError with
        | some err => .error err
        | none => .ok ()) ∧
    (Effect.destroy ∈ (logout api env session config w).2.effects.drop w.effects.length ↔
      (logoutRevoked api env session config w).1 = .ok () ∧
      (logoutDeleted env session (logoutRevoked api env session config w).2).1 = .ok ()) ∧
    ((logout api env session config w).1 = .ok () ↔
      (logoutRevoked api env session config w).1 = .ok () ∧
      (logoutDeleted env session (logoutRevoked api env session config w).2).1 = .ok () ∧
      env.destroyError = none) := by
  have hw1 := logoutRevoked_world api env session config w
  have he2 := logoutDeleted_effects env session (logoutRevoked api env session config w).2
  have he1 : (logoutRevoked api env session config w).2.effects = w.effects ++
      (match session.token with
        | some token =>
          [.fetch (revokeRequests api token config).1,
           .fetch (revokeRequests api token config).2]
        | none => []) := by
    rw [hw1]
  have hadd1 : Effect.destroy ∉ (match session.token with
      | some token =>
        [Effect.fetch (revokeRequests api token config).1,
         Effect.fetch (revokeRequests api token config).2]
      | none => []) := by
    cases session.token <;> simp
  have hadd2 : Effect.destroy ∉ (match session.identity with
      | some identity => [Effect.deleteMany (identity.get "id")]
      | none => []) := by
    cases session.identity <;> simp
  refine ⟨⟨he1, by rw [hw1]⟩, he2, ?_, ?_, ?_, ?_, ?_⟩
  · intro e h1
    rw [logout_eq, h1]
  · intro h1 e h2
    rw [logout_eq, h1]
    simp only []
    rw [h2]
  · intro h1 h2
    rw [logout_eq, h1]
    simp only []
    rw [h2]
    exact ⟨rfl, rfl⟩
  · rw [logout_eq]
    cases h1 : (logoutRevoked api env session config w).1 with
    | error e =>
      simp only [he1, List.drop_left, reduceCtorEq, false_and, iff_false]
      exact hadd1
    | ok u =>
      cases h2 : (logoutDeleted env session (logoutRevoked api env session config w).2).1 with
      | error e =>
        simp only [he2, he1, List.append_assoc, List.drop_left, reduceCtorEq, and_false,
          iff_false, List.mem_append, not_or]
        exact ⟨hadd1, hadd2⟩
      | ok u2 =>
        simp only [he2, he1, List.append_assoc, List.drop_left, and_self, iff_true]
        simp
  · rw [logout_eq]
    cases h1 : (logoutRevoked api env session config w).1 with
    | error e => simp
    | ok u =>
      cases h2 : (logoutDeleted env session (logoutRevoked api env session config w).2).1 with
      | error e => simp
      | ok u2 =>
        cases h3 : env.destroyError <;> simp

theorem logout_steps_in_order_witness :
    logout sampleAPI failingEnv sampleSession sampleConfig storedWorld =
      (.error (.error (revokeFailedMessage failingResponse failingResponse)),
       { storedWorld with effects :=
          [.fetch (revokeRequests sampleAPI sampleToken sampleConfig).1,
           .fetch (revokeRequests sampleAPI sampleToken sampleConfig).2] }) :=
  (logout_steps_in_order sampleAPI failingEnv sampleSession sampleConfig storedWorld).2.2.1
    (.error (revokeFailedMessage failingResponse failingResponse)) rfl

/-! ### The claim about `guildHasChannel` -/

/-- C5: `guildHasChannel` returns `true` exactly when the cache holds a channel under
`channelID` whose recorded `guildID` is strictly equal to `guildID`; it returns
`false` when no channel is cached under `channelID`, and `false` when the cached
channel records another guild. -/
theorem guildHasChannel_iff (guildID : JSVal) (channelID : String)
    (redisClient : ChannelCache) :
    (guildHasChannel guildID channelID redisClient = .ok true ↔
      redisClient.failure = none ∧
      ∃ channel, List.lookup channelID redisClient.channels = some channel ∧
        channel.guildID.strictEq guildID = true) ∧
    (redisClient.failure = none → List.lookup channelID redisClient.channels = none →
      guildHasChannel guildID channelID redisClient = .ok false) ∧
    (redisClient.failure = none → ∀ channel,
      List.lookup channelID redisClient.channels = some channel →
      channel.guildID.strictEq guildID = false →
      guildHasChannel guildID channelID redisClient = .ok false) := by
  unfold guildHasChannel RedisChannel.fetch
  refine ⟨?_, ?_, ?_⟩
  · cases hf : redisClient.failure with
    | some e => simp
    | none =>
      cases hl : List.lookup channelID redisClient.channels with
      | none => simp
      | some channel => simp
  · intro hf hl
    simp [hf, hl]
  · intro hf channel hl hne
    simp [hf, hl, hne]

/-- Sample for C5: channel `c1` is cached for guild `g1`; it belongs to `g1`, not to
`g2`, and the uncached `c2` belongs to no guild. -/
theorem guildHasChannel_iff_witness :
    guildHasChannel (.str "g1") "c1" ⟨[("c1", ⟨"c1", .str "g1"⟩)], none⟩ = .ok true ∧
    guildHasChannel (.str "g2") "c1" ⟨[("c1", ⟨"c1", .str "g1"⟩)], none⟩ = .ok false ∧
    guildHasChannel (.str "g1") "c2" ⟨[("c1", ⟨"c1", .str "g1"⟩)], none⟩ = .ok false :=
  ⟨(guildHasChannel_iff (.str "g1") "c1" ⟨[("c1", ⟨"c1", .str "g1"⟩)], none⟩).1.mpr
      ⟨rfl, ⟨"c1", .str "g1"⟩, rfl, by decide⟩,
   (guildHasChannel_iff (.str "g2") "c1" ⟨[("c1", ⟨"c1", .str "g1"⟩)], none⟩).2.2 rfl
      ⟨"c1", .str "g1"⟩ rfl (by decide),
   (guildHasChannel_iff (.str "g1") "c2" ⟨[("c1", ⟨"c1", .str "g1"⟩)], none⟩).2.1 rfl rfl⟩

/-! ### The claim about the HTTPS redirect -/

theorem encodeUrlChars_plain (l : List Char) (h : ∀ c ∈ l, plainUrlChar c = true) :
    encodeUrlChars 0 l = l := by
  induction l with
  | nil => rfl
  | cons c rest ih =>
    have hc := h c (List.mem_cons_self _ _)
    simp only [plainUrlChar, Bool.and_eq_true, decide_eq_true_eq] at hc
    simp only [encodeUrlChars, if_neg hc.2, hc.1, if_true]
    rw [ih fun d hd => h d (List.mem_cons_of_mem _ hd)]

/-- A string of plain characters is its own `Location`. -/
theorem encodeUrl_plain (url : String) (h : ∀ c ∈ url.toList, plainUrlChar c = true) :
    encodeUrl url = url := by
  unfold encodeUrl
  rw [encodeUrlChars_plain _ h]
  rfl

/-- C6, as stated, fails: with HTTPS enabled, the insecure request for `/a<b>` on host
`example.org` is answered with a redirect whose `Location` is
`https://example.org/a%3Cb%3E`, which is not `'https://' + req.headers.host + req.url`. -/
theorem https_redirect_location_is_encoded :
    sampleConfig.httpsEnabled.truthy = true ∧
    dispatch (appStack encodeUrl sampleConfig [fun _ => .reply (.other "routes")])
        { secure := false, host := some "example.org", url := "/a<b>" } =
      { invoked := 1, reply := some (.redirect "https://example.org/a%3Cb%3E") } ∧
    "https://example.org/a%3Cb%3E" ≠ "https://" ++ hostString (some "example.org") ++ "/a<b>" := by
  refine ⟨by decide, by decide, by decide⟩

/-- C6, amended: with `config.https.enabled` truthy, a request that is not secure is
answered by `res.redirect` called with exactly `'https://' + req.headers.host +
req.url` and no later middleware is invoked; the `Location` is what Express makes of
that argument, and with `encodeUrl` it is the argument itself whenever the argument
consists of plain characters; a secure request is passed on by `next()` and handled
by the later middlewares; with `config.https.enabled` falsy the redirect middleware
is not installed and requests are handled by the later middlewares alone. -/
theorem https_redirect_when_enabled (locationOf : String → String) (config : Config)
    (later : List Middleware) (req : Req) :
    (config.httpsEnabled.truthy = true → req.secure = false →
      dispatch (appStack locationOf config later) req =
        { invoked := 1
          reply := some (.redirect
            (locationOf ("https://" ++ hostString req.host ++ req.url))) }) ∧
    (config.httpsEnabled.truthy = true → req.secure = false →
      (∀ c ∈ ("https://" ++ hostString req.host ++ req.url).toList, plainUrlChar c = true) →
      dispatch (appStack encodeUrl config later) req =
        { invoked := 1
          reply := some (.redirect ("https://" ++ hostString req.host ++ req.url)) }) ∧
    (config.httpsEnabled.truthy = true → req.secure = true →
      httpsRedirect locationOf req = .next ∧
      dispatch (appStack locationOf config later) req =
        { invoked := (dispatch later req).invoked + 1, reply := (dispatch later req).reply }) ∧
    (config.httpsEnabled.truthy = false →
      appStack locationOf config later = later ∧
      dispatch (appStack locationOf config later) req = dispatch later req) := by
  refine ⟨?_, ?_, ?_, ?_⟩
  · intro hen hsec
    simp [appStack, hen, dispatch, httpsRedirect, hsec]
  · intro hen hsec hplain
    simp [appStack, hen, dispatch, httpsRedirect, hsec, encodeUrl_plain _ hplain]
  · intro hen hsec
    simp [appStack, hen, dispatch, httpsRedirect, hsec]
  · intro hen
    simp [appStack, hen]

theorem https_redirect_when_enabled_witness :
    dispatch (appStack encodeUrl sampleConfig [fun _ => .reply (.other "routes")])
        { secure := false, host := some "example.org", url := "/cp?guild=1&tab=feeds" } =
      { invoked := 1
        reply := some (.redirect "https://example.org/cp?guild=1&tab=feeds") } :=
  (https_redirect_when_enabled encodeUrl sampleConfig [fun _ => .reply (.other "routes")]
    { secure := false, host := some "example.org", url := "/cp?guild=1&tab=feeds" }).2.1
    (by decide) rfl (by decide)

/-! ### Flushing the cache -/

theorem globMatch_star (s : List Char) : globMatch ['*'] s = true := by
  unfold globMatch
  simp only [if_true, List.any_eq_true]
  exact ⟨[], (List.mem_tails _ _).mpr List.nil_suffix, by simp [globMatch]⟩

theorem globMatch_literal_cons (p : Char) (hstar : p ≠ '*') (hany : p ≠ '?')
    (ps s : List Char) :
    globMatch (p :: ps) s = true ↔ ∃ cs, s = p :: cs ∧ globMatch ps cs = true := by
  cases s with
  | nil => simp [globMatch, hstar]
  | cons c cs =>
    simp only [globMatch, if_neg hstar, hany, decide_False, Bool.false_or, Bool.and_eq_true,
      decide_eq_true_eq, List.cons.injEq]
    constructor
    · rintro ⟨hpc, hm⟩
      exact ⟨cs, ⟨hpc.symm, rfl⟩, hm⟩
    · rintro ⟨cs1, ⟨hpc, hcs⟩, hm⟩
      subst hcs
      exact ⟨hpc.symm, hm⟩

/-- A pattern of literal characters followed by `*` matches the keys that begin with
the literal characters. -/
theorem globMatch_literal_star (lit : List Char) (hlit : ∀ c ∈ lit, c ≠ '*' ∧ c ≠ '?')
    (s : List Char) : globMatch (lit ++ ['*']) s = true ↔ lit <+: s := by
  induction lit generalizing s with
  | nil => simp [globMatch_star]
  | cons p ps ih =>
    have hp := hlit p (List.mem_cons_self _ _)
    rw [List.cons_append, globMatch_literal_cons p hp.1 hp.2]
    constructor
    · rintro ⟨cs, rfl, hm⟩
      rw [List.cons_prefix_cons]
      exact ⟨rfl, (ih (fun c hc => hlit c (List.mem_cons_of_mem _ hc)) cs).mp hm⟩
    · intro hpre
      cases s with
      | nil => simp at hpre
      | cons c cs =>
        rw [List.cons_prefix_cons] at hpre
        obtain ⟨hpc, hrest⟩ := hpre
        subst hpc
        exact ⟨cs, rfl, (ih (fun c hc => hlit c (List.mem_cons_of_mem _ hc)) cs).mpr hrest⟩

theorem globMatch_drss (key : String) :
    globMatch "drss*".toList key.toList = true ↔ "drss".toList <+: key.toList := by
  have h := globMatch_literal_star ['d', 'r', 's', 's'] (by decide) key.toList
  exact h

theorem mem_keys_drss (r : Redis) (key : String) :
    key ∈ r.keys "drss*" ↔ key ∈ r.store.map Prod.fst ∧ "drss".toList <+: key.toList := by
  unfold Redis.keys
  rw [List.mem_filter, globMatch_drss]

theorem foldl_queue (keys acc : List String) :
    keys.foldl (fun queued key => queued ++ [key]) acc = acc ++ keys := by
  induction keys generalizing acc with
  | nil => simp
  | cons k ks ih => simp [ih]

theorem runQueued_store (r : Redis) (keys : List String) :
    (r.runQueued keys).2 =
      { r with store := r.store.filter fun kv => decide (kv.1 ∉ keys) } := by
  induction keys generalizing r with
  | nil => simp [Redis.runQueued]
  | cons k ks ih =>
    simp only [Redis.runQueued, Redis.del]
    rw [ih]
    simp only [List.filter_filter, List.mem_cons, not_or]
    congr 1
    apply List.filter_congr
    intro kv _
    by_cases h1 : kv.1 = k <;> by_cases h2 : kv.1 ∈ ks <;> simp [h1, h2]

theorem lookup_filter_key (p : String → Bool) (k : String) (l : List (String × String)) :
    List.lookup k (l.filter fun kv => p kv.1) = if p k then List.lookup k l else none := by
  induction l with
  | nil => simp
  | cons kv l ih =>
    obtain ⟨a, b⟩ := kv
    by_cases hka : k = a
    · subst hka
      cases hp : p k
      · simp only [List.filter_cons, hp, Bool.false_eq_true, if_false, ih]
      · simp [List.filter_cons, hp, List.lookup]
    · have hb : (k == a) = false := by simpa using hka
      cases hpa : p a
      · simp only [List.filter_cons, hpa, Bool.false_eq_true, if_false, ih, List.lookup, hb]
      · simp only [List.filter_cons, hpa, if_true, List.lookup, hb, ih]

theorem flushRedis_store (faults : RedisFaults) (r : Redis)
    (res : Option (List Nat)) (hok : (WebClientManager.flushRedis faults r).1 = .ok res) :
    (WebClientManager.flushRedis faults r).2.store =
      r.store.filter fun kv => decide (kv.1 ∉ r.keys "drss*") := by
  unfold WebClientManager.flushRedis at hok ⊢
  cases hk : faults.keysError with
  | some e => simp [hk] at hok
  | none =>
    simp only [hk] at hok ⊢
    by_cases hlen : (r.keys "drss*").length > 0
    · simp only [hlen, if_true] at hok ⊢
      cases he : faults.execError with
      | some e => simp [he] at hok
      | none =>
        simp only [Redis.exec, foldl_queue, List.nil_append]
        rw [runQueued_store]
    · have hnil : r.keys "drss*" = [] := by
        cases hkeys : r.keys "drss*" with
        | nil => rfl
        | cons a l => simp [hkeys] at hlen
      simp [hnil]

theorem flushRedis_unchanged (faults : RedisFaults) (r : Redis)
    (hnone : r.keys "drss*" = []) :
    (WebClientManager.flushRedis faults r).2 = r ∧
    (faults.keysError = none → (WebClientManager.flushRedis faults r).1 = .ok none) := by
  unfold WebClientManager.flushRedis
  cases hk : faults.keysError with
  | some e => simp
  | none => simp [hnone]

/-- C7: when `flushRedis` succeeds, no key beginning with `drss` is left in the cache
and every key that does not begin with `drss` still has the value it had; when no key
of the cache begins with `drss` the cache is left as it was, no transaction is
executed (and the call succeeds with `undefined` unless `KEYS` itself fails); and
`WebClient.flushRedis` and `WebClientManager.flushRedis` are the same function. -/
theorem flushRedis_removes_drss_keys (faults : RedisFaults) (r : Redis) :
    (∀ res, (WebClientManager.flushRedis faults r).1 = .ok res →
      (∀ key, "drss".toList <+: key.toList →
        (WebClientManager.flushRedis faults r).2.get key = none) ∧
      (∀ key, ¬ "drss".toList <+: key.toList →
        (WebClientManager.flushRedis faults r).2.get key = r.get key)) ∧
    ((∀ kv ∈ r.store, ¬ "drss".toList <+: kv.1.toList) →
      (WebClientManager.flushRedis faults r).2 = r ∧
      (WebClientManager.flushRedis faults r).2.execs = r.execs ∧
      (faults.keysError = none → (WebClientManager.flushRedis faults r).1 = .ok none)) ∧
    WebClient.flushRedis = WebClientManager.flushRedis := by
  refine ⟨?_, ?_, rfl⟩
  · intro res hok
    have hstore := flushRedis_store faults r res hok
    have hget : ∀ key, (WebClientManager.flushRedis faults r).2.get key =
        if decide (key ∉ r.keys "drss*") then r.get key else none := by
      intro key
      unfold Redis.get
      rw [hstore]
      exact lookup_filter_key (fun k => decide (k ∉ r.keys "drss*")) key r.store
    constructor
    · intro key hpre
      rw [hget]
      by_cases hmem : key ∈ r.keys "drss*"
      · simp [hmem]
      · simp only [hmem, not_false_eq_true, decide_True, if_true]
        unfold Redis.get
        rw [List.lookup_eq_none_iff]
        intro kv hkv
        simp only [bne_iff_ne, ne_eq]
        intro hkey
        apply hmem
        rw [mem_keys_drss]
        exact ⟨List.mem_map.mpr ⟨kv, hkv, hkey.symm⟩, hpre⟩
    · intro key hpre
      rw [hget]
      have hmem : key ∉ r.keys "drss*" := fun h => hpre ((mem_keys_drss r key).mp h).2
      simp [hmem]
  · intro hnone
    have hnil : r.keys "drss*" = [] := by
      rw [List.eq_nil_iff_forall_not_mem]
      intro key hkey
      obtain ⟨hmem, hpre⟩ := (mem_keys_drss r key).mp hkey
      obtain ⟨kv, hkv, rfl⟩ := List.mem_map.mp hmem
      exact hnone kv hkv hpre
    obtain ⟨h1, h2⟩ := flushRedis_unchanged faults r hnil
    exact ⟨h1, by rw [h1], h2⟩

theorem flushRedis_removes_drss_keys_witness :
    (WebClientManager.flushRedis ⟨none, none⟩
      ⟨[("drss_guild_1", "a"), ("session:9", "b"), ("drss", "c")], 0⟩).2 =
      ⟨[("session:9", "b")], 1⟩ ∧
    (WebClientManager.flushRedis ⟨none, none⟩
      ⟨[("drss_guild_1", "a"), ("session:9", "b"), ("drss", "c")], 0⟩).2.get "drss_guild_1"
      = none :=
  ⟨by decide,
   ((flushRedis_removes_drss_keys ⟨none, none⟩
      ⟨[("drss_guild_1", "a"), ("session:9", "b"), ("drss", "c")], 0⟩).1
      (some [1, 1]) rfl).1 "drss_guild_1" (by decide)⟩

/-! ### Lifetime of a freshly formatted token -/

theorem tokenIsExpired_num (strToNumber : String → Option ℚ) (nowMs : Int) (tokenObject : Obj)
    (e : ℚ) (h : tokenObject.get "expiresAt" = .num e) :
    tokenIsExpired strToNumber nowMs tokenObject = decide ((nowMs : ℚ) / 1000 > e) := by
  simp only [tokenIsExpired, h, jsGreater, JSVal.toNumber]

/-- C12: a token formatted at clock reading `t` (milliseconds) from an object whose
`expires_in` is the integer `d ≥ 1` (seconds) is reported not expired by
`tokenIsExpired` at every clock reading `t1` with `t ≤ t1 ≤ t + 1000 * d - 500`, and
expired at every `t1 > t + 1000 * d + 500`; `tokenIsExpired` on it is the strict
comparison `t1 / 1000 > expiresAt`; in particular the token is not expired at `t`
itself. -/
theorem fresh_token_lifetime (strToNumber : String → Option ℚ) (t d t1 : Int)
    (tokenObject : Obj) (hd : 1 ≤ d) (hin : tokenObject.get "expires_in" = .num (d : ℚ)) :
    (t ≤ t1 → t1 ≤ t + 1000 * d - 500 →
      tokenIsExpired strToNumber t1 (formatAccessToken t tokenObject) = false) ∧
    (t1 > t + 1000 * d + 500 →
      tokenIsExpired strToNumber t1 (formatAccessToken t tokenObject) = true) ∧
    tokenIsExpired strToNumber t1 (formatAccessToken t tokenObject) =
      decide ((t1 : ℚ) / 1000 > (mathRound ((t : ℚ) / 1000) : ℚ) + d) ∧
    tokenIsExpired strToNumber t (formatAccessToken t tokenObject) = false := by
  have hcmp := tokenIsExpired_num strToNumber t1 (formatAccessToken t tokenObject) _
    (formatAccessToken_get_expiresAt t tokenObject d hin)
  have hnow := tokenIsExpired_num strToNumber t (formatAccessToken t tokenObject) _
    (formatAccessToken_get_expiresAt t tokenObject d hin)
  have hnear := mathRound_nearest ((t : ℚ) / 1000)
  rw [abs_le] at hnear
  have hdq : (1 : ℚ) ≤ (d : ℚ) := by exact_mod_cast hd
  refine ⟨?_, ?_, hcmp, ?_⟩
  rotate_left 2
  · rw [hnow, decide_eq_false_iff_not]
    intro hgt
    linarith [hnear.1]
  · intro _ hle
    rw [hcmp, decide_eq_false_iff_not]
    have hq : (t1 : ℚ) ≤ (t : ℚ) + 1000 * (d : ℚ) - 500 := by exact_mod_cast hle
    intro hgt
    linarith [hnear.1]
  · intro hgt
    rw [hcmp, decide_eq_true_eq]
    have hq : (t1 : ℚ) > (t : ℚ) + 1000 * (d : ℚ) + 500 := by exact_mod_cast hgt
    linarith [hnear.2]

theorem fresh_token_lifetime_witness :
    tokenIsExpired (fun _ => none) 61000 (formatAccessToken 1500 sampleBody) = false ∧
    tokenIsExpired (fun _ => none) 62001 (formatAccessToken 1500 sampleBody) = true :=
  ⟨(fresh_token_lifetime (fun _ => none) 1500 60 61000 sampleBody (by decide)
      (by decide)).1 (by decide) (by decide),
   (fresh_token_lifetime (fun _ => none) 1500 60 62001 sampleBody (by decide)
      (by decide)).2.1 (by decide)⟩

/-! ### The argument of the app factory -/

/-- Whatever the manager object holds, `startHttp` calls the factory once, with the
values of `this.mongoConnection`, `this.redisClient` and `this.config`, in this order. -/
theorem startHttpOn_calls (st : Store) (r : Nat) :
    ∃ mongoConnection redisClient config,
      st.getProp (.ref r) "mongoConnection" = .ok mongoConnection ∧
      st.getProp (.ref r) "redisClient" = .ok redisClient ∧
      st.getProp (.ref r) "config" = .ok config ∧
      (WebClientManager.startHttpOn st (.ref r)).1 = [[mongoConnection, redisClient, config]] :=
  ⟨_, _, _, rfl, rfl, rfl, rfl⟩

/-- Called with the manager, the factory does what its documentation says: when the
manager's `config` has `http` and `https` objects, the settings `webClientManager`,
`config` has `http` and `https` objects and it has a `mongoConnection`, the settings
`webClientManager`, `config` and `redisClient` are the manager, its config and its
`redisClient`, and the session store gets the manager's `mongoConnection`. -/
theorem expressApp_of_manager (st : Store) (r c h hs : Nat)
    (hconfig : st.getProp (.ref r) "config" = .ok (.ref c))
    (hhttp : st.getProp (.ref c) "http" = .ok (.ref h))
    (hhttps : st.getProp (.ref c) "https" = .ok (.ref hs))
    (hmongo : (st.propOf r "mongoConnection").truthy = true) :
    ∃ app mongoConnection redisClient,
      st.getProp (.ref r) "mongoConnection" = .ok mongoConnection ∧
      st.getProp (.ref r) "redisClient" = .ok redisClient ∧
      expressApp st [.ref r] = .ok app ∧
      app.settings = [("webClientManager", .ref r), ("config", .ref c),
        ("redisClient", redisClient)] ∧
      app.mongooseConnection = mongoConnection := by
  refine ⟨
    { trustProxy := (st.propOf h "trustProxy").truthy
      redirect := (st.propOf hs "enabled").truthy
      sessionSecret := st.propOf h "sessionSecret"
      cookieSecure := st.propOf hs "enabled"
      mongooseConnection := st.propOf r "mongoConnection"
      settings := [("webClientManager", .ref r), ("config", .ref c),
        ("redisClient", st.propOf r "redisClient")] },
    _, _, rfl, rfl, ?_, rfl, rfl⟩
  unfold expressApp
  have hget : ∀ (x : Nat) (key : String), st.getProp (.ref x) key = .ok (st.propOf x key) :=
    fun _ _ => rfl
  simp only [List.head?_cons, Option.getD_some, hconfig, bind, Except.bind, hhttp, hhttps,
    hget, hmongo, Bool.not_true, Bool.false_eq_true, if_false, pure, Except.pure]

/-- C11 at the failing input: for a manager (object `0`) whose `mongoConnection` is
object `2`, `startHttp` calls the factory with the arguments `mongoConnection`,
`redisClient`, `config` (objects `2`, `3`, `1`), not with the manager; inside the
factory `config` is then the connection's own `config`, which has no `http`, and the
call throws before any setting is made.  Called with the manager, as its
documentation says, the factory would return the app with the settings the claim
names. -/
theorem startHttp_passes_connection_to_factory :
    (WebClientManager.startHttpOn sampleStore (.ref 0)).1 = [[.ref 2, .ref 3, .ref 1]] ∧
    (WebClientManager.startHttpOn sampleStore (.ref 0)).2 =
      .error (.external "TypeError: Cannot read property trustProxy of undefined") ∧
    expressApp sampleStore [.ref 0] = .ok
      { trustProxy := false
        redirect := false
        sessionSecret := .prim (.str "secret")
        cookieSecure := .prim (.bool false)
        mongooseConnection := .ref 2
        settings := [("webClientManager", .ref 0), ("config", .ref 1),
          ("redisClient", .ref 3)] } := by
  refine ⟨by decide, rfl, rfl⟩

end MonitoRSS
